import Mathlib

/-!
# GonormCypher

A shallow embedding of `gonorm.go` (a small Neo4j Cypher client) and proofs about it.

Conventions of the embedding:

* A Go call that can panic returns `Except Panic _`.
* Values of type `interface{}` that `encoding/json` has decoded are `JVal`: nil, bool,
  float64, string, `[]interface{}`, `map[string]interface{}`.  A map is kept as the
  list of its insertions, oldest first, so that a later binding of a key overrides an
  earlier one; the same type serves as the tree of a JSON text, whose objects may
  repeat a key.
* Values of type `interface{}` that the caller supplies as parameters are `GoVal`:
  besides the six kinds above they may be an integer, a `[]byte`, a nil slice, a nil
  map, or a value of any other dynamic type; `marshalValue` gives the tree of what
  `json.Marshal` writes for each.
* Pointers to `Gonorm` and `Cypher` are addresses into a `Store`; `none` is the nil
  pointer.  `Results`, `Node` and `Relationship` are never written after they are
  returned, so a pointer to one of them is `Option` of its value.
* A Go `string` that the caller supplies for a query or for its parameters is a
  byte string (`GoString`) and need not be UTF-8; a string that `encoding/json` has
  decoded is valid UTF-8 and is a Lean `String`, and a `String` used where a
  `GoString` is expected stands for its UTF-8 encoding.  The host of a `Gonorm` is
  only copied, never transcoded, and is kept as text.
* The network and the byte-level JSON grammar are not part of the repository: the
  outcome of the HTTP calls is a `World`, and a byte slice is a `Body`, which is
  either not JSON or the tree of a JSON text.
-/

namespace GonormCypher

/-! ## Go run-time model -/

/-- Run-time panics that the code of `gonorm.go` can raise. -/
inductive Panic where
  | nilDereference
  | indexOutOfRange
  | typeAssertion
deriving DecidableEq, Repr

/-- A Go `float64`: the finite value `m * 2 ^ e`, an infinity, or NaN. -/
inductive Float64 where
  | finite (m : Int) (e : Int)
  | inf (negative : Bool)
  | nan
deriving DecidableEq, Repr

/-- Word size of Go's `int` and the (implementation-dependent) result of converting
a float that does not fit. -/
structure Arch where
  intBits : Nat
  convOverflow : Float64 → Int

/-- The fraction of `m * 2 ^ e` discarded. -/
def Float64.truncate (m e : Int) : Int :=
  if 0 ≤ e then m * 2 ^ e.toNat else Int.tdiv m (2 ^ (-e).toNat)

/-- Whether `t` is a value of Go's `int`. -/
def Arch.fits (A : Arch) (t : Int) : Prop :=
  -(2 ^ (A.intBits - 1) : Int) ≤ t ∧ t < 2 ^ (A.intBits - 1)

instance (A : Arch) (t : Int) : Decidable (A.fits t) := by
  unfold Arch.fits; exact inferInstance

/-- The conversion `int(x)` of a `float64`. -/
def Float64.toInt (A : Arch) : Float64 → Int
  | .finite m e =>
    if A.fits (Float64.truncate m e) then Float64.truncate m e
    else A.convOverflow (.finite m e)
  | x => A.convOverflow x

/-- A byte. -/
abbrev Byte := Fin 256

/-- The byte of a number below 256. -/
def byte (n : Nat) : Byte := ⟨n % 256, Nat.mod_lt _ (by decide)⟩

/-- A Go `string`: any sequence of bytes. -/
structure GoString where
  bytes : List Byte
deriving DecidableEq, Repr

/-- The UTF-8 encoding of a rune. -/
def encodeRune (c : Char) : List Byte :=
  let n := c.toNat
  if n < 0x80 then [byte n]
  else if n < 0x800 then [byte (0xC0 + n / 64), byte (0x80 + n % 64)]
  else if n < 0x10000 then
    [byte (0xE0 + n / 4096), byte (0x80 + n / 64 % 64), byte (0x80 + n % 64)]
  else
    [byte (0xF0 + n / 262144), byte (0x80 + n / 4096 % 64), byte (0x80 + n / 64 % 64),
     byte (0x80 + n % 64)]

/-- The Go string that holds a text in UTF-8. -/
def GoString.ofString (s : String) : GoString := ⟨s.data.flatMap encodeRune⟩

instance : Coe String GoString := ⟨GoString.ofString⟩

/-- A continuation byte, 0x80 to 0xBF. -/
def isCont (b : Byte) : Prop := 0x80 ≤ b.val ∧ b.val ≤ 0xBF

instance (b : Byte) : Decidable (isCont b) := by
  unfold isCont; exact inferInstance

/-- The bytes `b0 b1` encode a rune in two bytes. -/
def twoByte (b0 b1 : Byte) : Prop := 0xC2 ≤ b0.val ∧ b0.val ≤ 0xDF ∧ isCont b1

instance (b0 b1 : Byte) : Decidable (twoByte b0 b1) := by
  unfold twoByte; exact inferInstance

/-- The bytes `b0 b1 b2` encode a rune in three bytes: no overlong form after 0xE0,
no surrogate after 0xED. -/
def threeByte (b0 b1 b2 : Byte) : Prop :=
  0xE0 ≤ b0.val ∧ b0.val ≤ 0xEF ∧ isCont b1 ∧ isCont b2 ∧
  (b0.val = 0xE0 → 0xA0 ≤ b1.val) ∧ (b0.val = 0xED → b1.val ≤ 0x9F)

instance (b0 b1 b2 : Byte) : Decidable (threeByte b0 b1 b2) := by
  unfold threeByte; exact inferInstance

/-- The bytes `b0 b1 b2 b3` encode a rune in four bytes: no overlong form after 0xF0,
nothing above U+10FFFF after 0xF4. -/
def fourByte (b0 b1 b2 b3 : Byte) : Prop :=
  0xF0 ≤ b0.val ∧ b0.val ≤ 0xF4 ∧ isCont b1 ∧ isCont b2 ∧ isCont b3 ∧
  (b0.val = 0xF0 → 0x90 ≤ b1.val) ∧ (b0.val = 0xF4 → b1.val ≤ 0x8F)

instance (b0 b1 b2 b3 : Byte) : Decidable (fourByte b0 b1 b2 b3) := by
  unfold fourByte; exact inferInstance

/-- The replacement character U+FFFD. -/
def replacement : Char := Char.ofNat 0xFFFD

/-- The call `utf8.DecodeRune` on the bytes `b0 :: rest`: the rune and its width, or
the replacement character and width 1 when no valid encoding starts here. -/
def decodeRune (b0 : Byte) (rest : List Byte) : Char × Nat :=
  if b0.val < 0x80 then (Char.ofNat b0.val, 1)
  else
    match rest with
    | [] => (replacement, 1)
    | b1 :: r1 =>
      if twoByte b0 b1 then (Char.ofNat ((b0.val - 0xC0) * 64 + (b1.val - 0x80)), 2)
      else
        match r1 with
        | [] => (replacement, 1)
        | b2 :: r2 =>
          if threeByte b0 b1 b2 then
            (Char.ofNat ((b0.val - 0xE0) * 4096 + (b1.val - 0x80) * 64 + (b2.val - 0x80)), 3)
          else
            match r2 with
            | [] => (replacement, 1)
            | b3 :: _ =>
              if fourByte b0 b1 b2 b3 then
                (Char.ofNat ((b0.val - 0xF0) * 262144 + (b1.val - 0x80) * 4096 +
                  (b2.val - 0x80) * 64 + (b3.val - 0x80)), 4)
              else (replacement, 1)

/-- The runes that `encoding/json` writes for a byte string, after skipping `skip`
bytes: each valid encoding gives its rune, each byte that starts none gives U+FFFD. -/
def toRunesFrom : Nat → List Byte → List Char
  | _, [] => []
  | skip + 1, _ :: rest => toRunesFrom skip rest
  | 0, b0 :: rest => (decodeRune b0 rest).1 :: toRunesFrom ((decodeRune b0 rest).2 - 1) rest

/-- The text that `encoding/json` writes for a Go string: invalid UTF-8 is coerced to
U+FFFD. -/
def GoString.toText (s : GoString) : String := String.mk (toRunesFrom 0 s.bytes)

/-- A Go string that is valid UTF-8: encoding the text written for it gives it back. -/
def GoString.Valid (s : GoString) : Prop := GoString.ofString s.toText = s

instance (s : GoString) : Decidable s.Valid := by
  unfold GoString.Valid; exact inferInstance

/-- The order of Go strings on their bytes. -/
def bytesLess : List Byte → List Byte → Bool
  | [], [] => false
  | [], _ :: _ => true
  | _ :: _, [] => false
  | a :: as, b :: bs =>
    if a.val < b.val then true else if a.val = b.val then bytesLess as bs else false

/-- The comparison `a < b` of two Go strings. -/
def GoString.less (a b : GoString) : Prop := bytesLess a.bytes b.bytes = true

instance (a b : GoString) : Decidable (a.less b) := by
  unfold GoString.less; exact inferInstance

/-- The standard base-64 digit of a number below 64. -/
def base64Digit (n : Nat) : Char :=
  if n < 26 then Char.ofNat (65 + n)
  else if n < 52 then Char.ofNat (97 + (n - 26))
  else if n < 62 then Char.ofNat (48 + (n - 52))
  else if n = 62 then Char.ofNat 43
  else Char.ofNat 47

/-- The standard base-64 encoding, with padding, in which `encoding/json` writes a
`[]byte`. -/
def base64 : List Byte → List Char
  | [] => []
  | [a] => [base64Digit (a.val / 4), base64Digit (a.val % 4 * 16), Char.ofNat 61,
      Char.ofNat 61]
  | [a, b] => [base64Digit (a.val / 4), base64Digit (a.val % 4 * 16 + b.val / 16),
      base64Digit (b.val % 16 * 4), Char.ofNat 61]
  | a :: b :: c :: rest =>
    base64Digit (a.val / 4) :: base64Digit (a.val % 4 * 16 + b.val / 16) ::
      base64Digit (b.val % 16 * 4 + c.val / 64) :: base64Digit (c.val % 64) ::
      base64 rest

/-- A value of type `interface{}` that `encoding/json` has decoded. -/
inductive JVal where
  | null
  | bool (b : Bool)
  | num (x : Float64)
  | str (s : String)
  | arr (xs : List JVal)
  | obj (kvs : List (String × JVal))

instance : Inhabited JVal := ⟨JVal.null⟩

/-- A Go `map[string]interface{}`, as the list of its insertions. -/
abbrev GoMap := List (String × JVal)

/-- The map read `m[key]`: the latest binding of `key`, or nil when there is none. -/
def mapIndex (m : GoMap) (key : String) : JVal :=
  m.foldl (fun acc kv => if kv.1 = key then kv.2 else acc) JVal.null

/-- The slice read `xs[i]`. -/
def index {α : Type} (xs : List α) (i : Nat) : Except Panic α :=
  match xs.get? i with
  | some x => .ok x
  | none => .error .indexOutOfRange

/-- The type assertion `v.([]interface{})`. -/
def assertSlice : JVal → Except Panic (List JVal)
  | .arr xs => .ok xs
  | _ => .error .typeAssertion

/-- The type assertion `v.(float64)`. -/
def assertFloat64 : JVal → Except Panic Float64
  | .num x => .ok x
  | _ => .error .typeAssertion

/-- The type assertion `v.(string)`. -/
def assertString : JVal → Except Panic String
  | .str s => .ok s
  | _ => .error .typeAssertion

/-- The type assertion `v.(map[string]interface{})`. -/
def assertMap : JVal → Except Panic GoMap
  | .obj kvs => .ok kvs
  | _ => .error .typeAssertion

/-! ## Data model of `gonorm.go` -/

/-- The `Neo4jError` struct. -/
structure Neo4jError where
  Message : String := ""
  Exception : String := ""
  Fullname : String := ""
  Stacktrace : List String := []
deriving DecidableEq, Repr

/-- A non-nil value of the interface `error`: a `*Neo4jError` (possibly a nil pointer),
or an error made by `encoding/json`, `net/http` or `io`. -/
inductive GoError where
  | neo4j (p : Option Neo4jError)
  | jsonSyntax
  | jsonUnmarshalType (value : String) (target : String)
  | jsonUnsupportedValue (str : String)
  | foreign (msg : String)
deriving DecidableEq, Repr

/-- The method `(*Neo4jError).Error`. -/
def Neo4jError.Error : Option Neo4jError → Except Panic String
  | none => .error .nilDereference
  | some neo4jError => .ok neo4jError.Message

/-- A value of type `interface{}` that the caller supplies as a parameter: the six
kinds that JSON has, with Go strings, and besides them an integer, a `[]byte`, a nil
slice, a nil map, and a value of any other dynamic type, which is given by what
`json.Marshal` makes of it.  A map is the list of its insertions, oldest first. -/
inductive GoVal where
  | null
  | bool (b : Bool)
  | num (x : Float64)
  | int (n : Int)
  | str (s : GoString)
  | bytes (b : List Byte)
  | nilSlice
  | arr (xs : List GoVal)
  | nilMap
  | obj (kvs : List (GoString × GoVal))
  | other (written : Except GoError JVal)

instance : Inhabited GoVal := ⟨GoVal.null⟩

/-- A non-nil `map[string]interface{}` of parameters, as the list of its insertions. -/
abbrev ParamMap := List (GoString × GoVal)

/-- The map read `m[key]` on parameters: the latest binding of `key`, or nil. -/
def paramIndex (m : ParamMap) (key : GoString) : GoVal :=
  m.foldl (fun acc kv => if kv.1 = key then kv.2 else acc) GoVal.null

/-- A heap address. -/
abbrev Addr := Nat

/-- The `Gonorm` struct. -/
structure Gonorm where
  Host : String := ""
  Port : Int := 0
  cypherUrl : String := ""
deriving DecidableEq, Repr

/-- The `Cypher` struct; `Params = none` is the nil map, `gonorm = none` the nil pointer. -/
structure Cypher where
  Query : GoString := ⟨[]⟩
  Params : Option ParamMap := none
  gonorm : Option Addr := none

/-- The `Results` struct; a nil slice is the empty list. -/
structure Results where
  Columns : List JVal := []
  Data : List JVal := []
  Error : Option GoError := none

/-- The `Node` struct. -/
structure Node where
  Params : GoMap

/-- The `Relationship` struct; `Type_` is the field `Type`, a reserved word here. -/
structure Relationship where
  Params : GoMap
  Type_ : String
  Start : String
  End : String

/-- The allocated `Gonorm` and `Cypher` objects; an address is a position. -/
structure Store where
  gonorms : List Gonorm := []
  cyphers : List Cypher := []

/-- The pointer read `*p`. -/
def deref {α : Type} (heap : List α) : Option Addr → Except Panic α
  | none => .error .nilDereference
  | some a =>
    match heap.get? a with
    | some x => .ok x
    | none => .error .nilDereference

/-! ## The part of `encoding/json` that `Execute` calls

Modelled on trees: `json.Marshal` yields the tree of the text it writes, and
`json.Unmarshal` consumes a `Body`. -/

/-- A byte slice as `encoding/json` sees it: not a JSON text, or the tree of one. -/
inductive Body where
  | invalid
  | doc (v : JVal)

/-- The name by which `json.UnmarshalTypeError` calls a JSON value. -/
def kindName : JVal → String
  | .null => "null"
  | .bool _ => "bool"
  | .num _ => "number"
  | .str _ => "string"
  | .arr _ => "array"
  | .obj _ => "object"

/-- Case folding of one rune, as far as it can reach an ASCII letter: upper case,
the long s (U+017F) and the Kelvin sign (U+212A). -/
def foldRune (c : Char) : Char :=
  if c = Char.ofNat 0x17F then Char.ofNat 0x73
  else if c = Char.ofNat 0x212A then Char.ofNat 0x6B
  else c.toLower

/-- The folded form of an object key. -/
def foldName (s : String) : List Char := s.data.map foldRune

/-- The struct field an object key selects: the field of that exact name, else the
first one equal to it under case folding. -/
def findField (fields : List String) (key : String) : Option String :=
  match fields.find? (fun f => f == key) with
  | some f => some f
  | none => fields.find? (fun f => foldName f == foldName key)

/-- The earlier of two decoding errors (`saveError` keeps the first). -/
def firstError (e1 e2 : Option GoError) : Option GoError :=
  match e1 with
  | some e => some e
  | none => e2

/-- Decoding a JSON value into a `string` that holds `cur`. -/
def decodeString (target : String) (cur : String) : JVal → String × Option GoError
  | .str s => (s, none)
  | .null => (cur, none)
  | v => (cur, some (.jsonUnmarshalType (kindName v) target))

/-- Decoding the elements of a JSON array into the elements of a `[]string`. -/
def decodeStringElems (target : String) : List String → List JVal → List String × Option GoError
  | _, [] => ([], none)
  | cur, x :: xs =>
    let here := decodeString target (cur.headD "") x
    let rest := decodeStringElems target cur.tail xs
    (here.1 :: rest.1, firstError here.2 rest.2)

/-- Decoding a JSON value into a `[]string` that holds `cur`. -/
def decodeStrings (target : String) (cur : List String) : JVal → List String × Option GoError
  | .arr xs => decodeStringElems target cur xs
  | .null => ([], none)
  | v => (cur, some (.jsonUnmarshalType (kindName v) target))

/-- Decoding a JSON value into a `[]interface{}` that holds `cur`. -/
def decodeValues (target : String) (cur : List JVal) : JVal → List JVal × Option GoError
  | .arr xs => (xs, none)
  | .null => ([], none)
  | v => (cur, some (.jsonUnmarshalType (kindName v) target))

/-- Decoding a JSON value into a field of interface type `error`: only null is stored. -/
def decodeErrorField (target : String) (cur : Option GoError) : JVal → Option GoError × Option GoError
  | .null => (none, none)
  | v => (cur, some (.jsonUnmarshalType (kindName v) target))

/-- One member of a JSON object decoded into a `Neo4jError`. -/
def decodeNeo4jErrorMember (acc : Neo4jError × Option GoError) (kv : String × JVal) :
    Neo4jError × Option GoError :=
  match findField ["message", "exception", "fullname", "stacktrace"] kv.1 with
  | none => acc
  | some f =>
    if f = "message" then
      let r := decodeString f acc.1.Message kv.2
      ({ acc.1 with Message := r.1 }, firstError acc.2 r.2)
    else if f = "exception" then
      let r := decodeString f acc.1.Exception kv.2
      ({ acc.1 with Exception := r.1 }, firstError acc.2 r.2)
    else if f = "fullname" then
      let r := decodeString f acc.1.Fullname kv.2
      ({ acc.1 with Fullname := r.1 }, firstError acc.2 r.2)
    else
      let r := decodeStrings f acc.1.Stacktrace kv.2
      ({ acc.1 with Stacktrace := r.1 }, firstError acc.2 r.2)

/-- The call `json.Unmarshal(body, &neo4jError)` for a non-nil `neo4jError` that
holds `cur`: the new pointer and the error returned. -/
def jsonUnmarshalNeo4jError (body : Body) (cur : Neo4jError) : Option Neo4jError × Option GoError :=
  match body with
  | .invalid => (some cur, some .jsonSyntax)
  | .doc .null => (none, none)
  | .doc (.obj kvs) =>
    let r := kvs.foldl decodeNeo4jErrorMember (cur, none)
    (some r.1, r.2)
  | .doc v => (some cur, some (.jsonUnmarshalType (kindName v) "Neo4jError"))

/-- One member of a JSON object decoded into a `Results`. -/
def decodeResultsMember (acc : Results × Option GoError) (kv : String × JVal) :
    Results × Option GoError :=
  match findField ["columns", "data", "Error"] kv.1 with
  | none => acc
  | some f =>
    if f = "columns" then
      let r := decodeValues f acc.1.Columns kv.2
      ({ acc.1 with Columns := r.1 }, firstError acc.2 r.2)
    else if f = "data" then
      let r := decodeValues f acc.1.Data kv.2
      ({ acc.1 with Data := r.1 }, firstError acc.2 r.2)
    else
      let r := decodeErrorField f acc.1.Error kv.2
      ({ acc.1 with Error := r.1 }, firstError acc.2 r.2)

/-- The call `json.Unmarshal(body, &results)` for a non-nil `results` that holds
`cur`: the new pointer and the error returned. -/
def jsonUnmarshalResults (body : Body) (cur : Results) : Option Results × Option GoError :=
  match body with
  | .invalid => (some cur, some .jsonSyntax)
  | .doc .null => (none, none)
  | .doc (.obj kvs) =>
    let r := kvs.foldl decodeResultsMember (cur, none)
    (some r.1, r.2)
  | .doc v => (some cur, some (.jsonUnmarshalType (kindName v) "Results"))

/-- Insertion of a binding into a list of bindings sorted by key, replacing the
binding of an equal key. -/
def sortedInsert {α : Type} (k : GoString) (v : α) :
    List (GoString × α) → List (GoString × α)
  | [] => [(k, v)]
  | (k1, v1) :: rest =>
    if k.less k1 then (k, v) :: (k1, v1) :: rest
    else if k = k1 then (k, v) :: rest
    else (k1, v1) :: sortedInsert k v rest

/-- The bindings a map holds, in the key order in which `json.Marshal` writes them:
the order of the keys as byte strings. -/
def mapEntries {α : Type} (m : List (GoString × α)) : List (GoString × α) :=
  m.foldl (fun acc kv => sortedInsert kv.1 kv.2 acc) []

/-- Encodings in sequence, stopping at the first error. -/
def sequenceEntries :
    List (GoString × Except GoError JVal) → Except GoError (List (GoString × JVal))
  | [] => .ok []
  | (k, r) :: rest =>
    match r with
    | .error e => .error e
    | .ok v =>
      match sequenceEntries rest with
      | .error e => .error e
      | .ok vs => .ok ((k, v) :: vs)

mutual
/-- The tree of the text that `json.Marshal` writes for an `interface{}` value.  NaN
and the infinities are unsupported values; a string and a map key are written with
their invalid UTF-8 coerced; an integer is written as a number; a `[]byte` is written
as a base-64 string; a nil slice and a nil map are written as null; the members of a
map come in the order of its keys. -/
def marshalValue : GoVal → Except GoError JVal
  | .null => .ok .null
  | .bool b => .ok (.bool b)
  | .num (.finite m e) => .ok (.num (.finite m e))
  | .num (.inf false) => .error (.jsonUnsupportedValue "+Inf")
  | .num (.inf true) => .error (.jsonUnsupportedValue "-Inf")
  | .num .nan => .error (.jsonUnsupportedValue "NaN")
  | .int n => .ok (.num (.finite n 0))
  | .str s => .ok (.str s.toText)
  | .bytes b => .ok (.str (String.mk (base64 b)))
  | .nilSlice => .ok .null
  | .arr xs =>
    match marshalElems xs with
    | .error e => .error e
    | .ok ys => .ok (.arr ys)
  | .nilMap => .ok .null
  | .obj kvs =>
    match sequenceEntries (mapEntries (marshalBindings kvs)) with
    | .error e => .error e
    | .ok ys => .ok (.obj (ys.map (fun p => (p.1.toText, p.2))))
  | .other written => written
/-- The elements of a slice, encoded in order. -/
def marshalElems : List GoVal → Except GoError (List JVal)
  | [] => .ok []
  | x :: xs =>
    match marshalValue x with
    | .error e => .error e
    | .ok y =>
      match marshalElems xs with
      | .error e => .error e
      | .ok ys => .ok (y :: ys)
/-- Each insertion of a map with the encoding of its value. -/
def marshalBindings : List (GoString × GoVal) → List (GoString × Except GoError JVal)
  | [] => []
  | (k, v) :: rest => (k, marshalValue v) :: marshalBindings rest
end

/-- The call `json.Marshal(c)` for `c *Cypher`: a nil pointer is written as null; the
fields `Query` and `Params` are written under their tags, the query with its invalid
UTF-8 coerced, a nil map as null; the unexported field `gonorm` is not written. -/
def jsonMarshalCypher : Option Cypher → Except GoError JVal
  | none => .ok .null
  | some c =>
    match c.Params with
    | none => .ok (.obj [("query", .str c.Query.toText), ("params", .null)])
    | some m =>
      match marshalValue (.obj m) with
      | .error e => .error e
      | .ok p => .ok (.obj [("query", .str c.Query.toText), ("params", p)])

/-! ## The network -/

/-- What `client.Do` returns on success: the status code and what
`ioutil.ReadAll(resp.Body)` will return. -/
structure Response where
  StatusCode : Int
  readAll : Except GoError Body

/-- The outcome of the two `net/http` calls of `Execute`, by URL and request body. -/
structure World where
  newRequest : String → JVal → Option GoError
  clientDo : String → JVal → Except GoError Response

/-! ## The functions of `gonorm.go` -/

/-- The factory `New`: allocates a `Gonorm` and returns its address. -/
def New (σ : Store) (host : String) (port : Int) : Store × Option Addr :=
  ({ σ with gonorms := σ.gonorms ++
      [{ Host := host, Port := port,
         cypherUrl := host ++ ":" ++ toString port ++ "/db/data/cypher" }] },
   some σ.gonorms.length)

/-- The method `(*Gonorm).Cypher`: allocates `&Cypher{Query: query, gonorm: g}`; the
receiver is stored, not read. -/
def Gonorm.Cypher (σ : Store) (g : Option Addr) (query : GoString) :
    Store × Option Addr :=
  ({ σ with cyphers := σ.cyphers ++ [{ Query := query, gonorm := g }] },
   some σ.cyphers.length)

/-- The method `(*Cypher).On`: writes `c.Params` and returns `c`. -/
def Cypher.On (σ : Store) (c : Option Addr) (params : Option ParamMap) :
    Except Panic (Store × Option Addr) :=
  match c with
  | none => .error .nilDereference
  | some a =>
    match σ.cyphers.get? a with
    | none => .error .nilDereference
    | some cy => .ok ({ σ with cyphers := σ.cyphers.set a { cy with Params := params } }, c)

/-- The method `(*Cypher).Execute`, against the network `W`; the result is the
returned `*Results`. -/
def Cypher.Execute (W : World) (σ : Store) (c : Option Addr) : Except Panic (Option Results) :=
  let results : Results := {}
  match jsonMarshalCypher (c.bind (fun a => σ.cyphers.get? a)) with
  | .error err => .ok (some { results with Error := some err })
  | .ok requestContent =>
    match deref σ.cyphers c with
    | .error p => .error p
    | .ok cy =>
      match deref σ.gonorms cy.gonorm with
      | .error p => .error p
      | .ok g =>
        match W.newRequest g.cypherUrl requestContent with
        | some err => .ok (some { results with Error := some err })
        | none =>
          match W.clientDo g.cypherUrl requestContent with
          | .error err => .ok (some { results with Error := some err })
          | .ok resp =>
            match resp.readAll with
            | .error err => .ok (some { results with Error := some err })
            | .ok body =>
              if resp.StatusCode ≠ 200 then
                let neo4jError := (jsonUnmarshalNeo4jError body {}).1
                .ok (some { results with Error := some (.neo4j neo4jError) })
              else
                .ok (jsonUnmarshalResults body results).1

/-- The method `(*Results).AsInt`. -/
def Results.AsInt (A : Arch) (r : Option Results) : Except Panic (Int × Option GoError) := do
  let r ← (match r with | none => .error .nilDereference | some r => .ok r)
  if r.Error ≠ none then
    return (-1, r.Error)
  let row ← index r.Data 0 >>= assertSlice
  let x ← index row 0 >>= assertFloat64
  return (x.toInt A, none)

/-- The method `(*Results).AsInts`. -/
def Results.AsInts (A : Arch) (r : Option Results) : Except Panic (List Int × Option GoError) := do
  let r ← (match r with | none => .error .nilDereference | some r => .ok r)
  if r.Error ≠ none then
    return ([], r.Error)
  let row ← index r.Data 0 >>= assertSlice
  let ints ← row.foldlM (fun ints value => do
    let x ← assertFloat64 value
    pure (ints ++ [x.toInt A])) []
  return (ints, none)

/-- The method `(*Results).AsString`. -/
def Results.AsString (r : Option Results) : Except Panic (String × Option GoError) := do
  let r ← (match r with | none => .error .nilDereference | some r => .ok r)
  if r.Error ≠ none then
    return ("", r.Error)
  let row ← index r.Data 0 >>= assertSlice
  let s ← index row 0 >>= assertString
  return (s, none)

/-- The method `(*Results).AsStrings`. -/
def Results.AsStrings (r : Option Results) : Except Panic (List String × Option GoError) := do
  let r ← (match r with | none => .error .nilDereference | some r => .ok r)
  if r.Error ≠ none then
    return ([], r.Error)
  let row ← index r.Data 0 >>= assertSlice
  let strings ← row.foldlM (fun strings value => do
    let s ← assertString value
    pure (strings ++ [s])) []
  return (strings, none)

/-- The method `(*Results).AsNode`; the node returned is `none` for a nil pointer. -/
def Results.AsNode (r : Option Results) : Except Panic (Option Node × Option GoError) := do
  let r ← (match r with | none => .error .nilDereference | some r => .ok r)
  if r.Error ≠ none then
    return (none, r.Error)
  let row ← index r.Data 0 >>= assertSlice
  let nodeData ← index row 0 >>= assertMap
  let params ← assertMap (mapIndex nodeData "data")
  return (some { Params := params }, none)

/-- The method `(*Results).AsNodes`; the slice returned is `none` for a nil slice. -/
def Results.AsNodes (r : Option Results) : Except Panic (Option (List Node) × Option GoError) := do
  let r ← (match r with | none => .error .nilDereference | some r => .ok r)
  if r.Error ≠ none then
    return (none, r.Error)
  let row ← index r.Data 0 >>= assertSlice
  let nodes ← row.foldlM (fun nodes value => do
    let m ← assertMap value
    let params ← assertMap (mapIndex m "data")
    pure (nodes ++ [({ Params := params } : Node)])) []
  return (some nodes, none)

/-- The method `(*Results).AsRelationship`. -/
def Results.AsRelationship (r : Option Results) :
    Except Panic (Option Relationship × Option GoError) := do
  let r ← (match r with | none => .error .nilDereference | some r => .ok r)
  if r.Error ≠ none then
    return (none, r.Error)
  let row ← index r.Data 0 >>= assertSlice
  let relationshipData ← index row 0 >>= assertMap
  let params ← assertMap (mapIndex relationshipData "data")
  let type ← assertString (mapIndex relationshipData "type")
  let start ← assertString (mapIndex relationshipData "start")
  let end_ ← assertString (mapIndex relationshipData "end")
  return (some { Params := params, Type_ := type, Start := start, End := end_ }, none)

/-- The method `(*Results).AsRelationships`. -/
def Results.AsRelationships (r : Option Results) :
    Except Panic (Option (List Relationship) × Option GoError) := do
  let r ← (match r with | none => .error .nilDereference | some r => .ok r)
  if r.Error ≠ none then
    return (none, r.Error)
  let row ← index r.Data 0 >>= assertSlice
  let relationships ← row.foldlM (fun relationships value => do
    let params ← assertMap value >>= fun m => assertMap (mapIndex m "data")
    let type ← assertMap value >>= fun m => assertString (mapIndex m "type")
    let start ← assertMap value >>= fun m => assertString (mapIndex m "start")
    let end_ ← assertMap value >>= fun m => assertString (mapIndex m "end")
    pure (relationships ++
      [({ Params := params, Type_ := type, Start := start, End := end_ } : Relationship)])) []
  return (some relationships, none)

/-! ## Reference notions used to state the properties -/

/-- The rational number that the finite float `m * 2 ^ e` denotes. -/
def Float64.value (m e : Int) : ℚ := (m : ℚ) * (2 : ℚ) ^ e

/-- Truncation toward zero, as the specification words it: the floor of a
non-negative number, the ceiling of a negative one. -/
def truncTowardZero (q : ℚ) : Int := if 0 ≤ q then ⌊q⌋ else ⌈q⌉

/-- A network that accepts every request and answers it with the given status code
and body. -/
def World.answering (status : Int) (body : Body) : World where
  newRequest := fun _ _ => none
  clientDo := fun _ _ => .ok { StatusCode := status, readAll := .ok body }

/-- The store after `New("http://localhost", 7474)` and then `g.Cypher(query)`:
the `Gonorm` is at address 0 and the `Cypher` at address 0. -/
def Store.withQuery (query : String) : Store :=
  (Gonorm.Cypher (New {} "http://localhost" 7474).1 (New {} "http://localhost" 7474).2 query).1

/-- The members of a well-formed fault object. -/
def faultMembers (m e f : String) (s : List String) : List (String × JVal) :=
  [("message", .str m), ("exception", .str e), ("fullname", .str f),
   ("stacktrace", .arr (s.map JVal.str))]

/-- The decimal numeral of an integer, as the verb `%d` of `fmt` prints it: a minus
sign for a negative number, then the digits of the absolute value. -/
def decimal (p : Int) : String :=
  (if p < 0 then "-" else "") ++ String.mk (Nat.toDigits 10 p.natAbs)

/-- One result per element of a list, in order, up to the first panic. -/
def traverse {α β : Type} (f : α → Except Panic β) : List α → Except Panic (List β)
  | [] => .ok []
  | x :: xs =>
    match f x with
    | .error p => .error p
    | .ok b =>
      match traverse f xs with
      | .error p => .error p
      | .ok bs => .ok (b :: bs)

/-- What one turn of the loop of `AsInts` appends for the element `value`. -/
def intOf (A : Arch) (value : JVal) : Except Panic Int := do
  let x ← assertFloat64 value
  pure (x.toInt A)

/-- What one turn of the loop of `AsNodes` appends for the element `value`. -/
def nodeOf (value : JVal) : Except Panic Node := do
  let m ← assertMap value
  let params ← assertMap (mapIndex m "data")
  pure { Params := params }

/-- What one turn of the loop of `AsRelationships` appends for the element `value`. -/
def relationshipOf (value : JVal) : Except Panic Relationship := do
  let params ← assertMap value >>= fun m => assertMap (mapIndex m "data")
  let type ← assertMap value >>= fun m => assertString (mapIndex m "type")
  let start ← assertMap value >>= fun m => assertString (mapIndex m "start")
  let end_ ← assertMap value >>= fun m => assertString (mapIndex m "end")
  pure { Params := params, Type_ := type, Start := start, End := end_ }

/-- The latest binding of `key` in a list of insertions, or `dflt` when there is none:
what `mapIndex` and `paramIndex` compute. -/
def readLast {κ β : Type} [DecidableEq κ] (dflt : β) (l : List (κ × β)) (key : κ) : β :=
  l.foldl (fun acc kv => if kv.1 = key then kv.2 else acc) dflt

/-- A JSON value that is deeply equal to a parameter value: the same scalar (a Go
string being the UTF-8 encoding of the JSON string, an integer being the number of
the same value), a slice equal element by element, a map whose keys are valid UTF-8
and which binds the same keys to deeply equal values. -/
inductive DeepEqual : GoVal → JVal → Prop where
  | null : DeepEqual .null .null
  | bool (b : Bool) : DeepEqual (.bool b) (.bool b)
  | num (m e : Int) : DeepEqual (.num (.finite m e)) (.num (.finite m e))
  | int (n : Int) : DeepEqual (.int n) (.num (.finite n 0))
  | str (s : String) : DeepEqual (.str (GoString.ofString s)) (.str s)
  | arr (xs : List GoVal) (ys : List JVal) (h : List.Forall₂ DeepEqual xs ys) :
      DeepEqual (.arr xs) (.arr ys)
  | obj (m : ParamMap) (kvs : GoMap)
      (hvalid : ∀ kv ∈ m, kv.1.Valid)
      (hk : ∀ key : String,
        key ∈ kvs.map Prod.fst ↔ GoString.ofString key ∈ m.map Prod.fst)
      (hv : ∀ key : String,
        DeepEqual (paramIndex m (GoString.ofString key)) (mapIndex kvs key)) :
      DeepEqual (.obj m) (.obj kvs)

/-- A parameter value that JSON can represent as it is: nil, a boolean, a finite
number, an integer, a string that is valid UTF-8, a non-nil slice of such values, or
a non-nil map of such values whose keys are valid UTF-8. -/
inductive Representable : GoVal → Prop where
  | null : Representable .null
  | bool (b : Bool) : Representable (.bool b)
  | num (m e : Int) : Representable (.num (.finite m e))
  | int (n : Int) : Representable (.int n)
  | str (s : GoString) (h : s.Valid) : Representable (.str s)
  | arr (xs : List GoVal) (h : ∀ x ∈ xs, Representable x) : Representable (.arr xs)
  | obj (kvs : ParamMap) (hk : ∀ kv ∈ kvs, kv.1.Valid)
      (h : ∀ kv ∈ kvs, Representable kv.2) : Representable (.obj kvs)

/-! ## Lemmas on the run-time model -/

theorem deref_of_get? {α : Type} (heap : List α) (a : Addr) (x : α)
    (h : heap.get? a = some x) : deref heap (some a) = .ok x := by
  unfold deref
  simp only [h]

/-! ## Lemmas on Go strings -/

theorem byte_val (n : Nat) (h : n < 256) : (byte n).val = n := Nat.mod_eq_of_lt h

theorem char_lt (c : Char) : c.toNat < 0xD800 ∨ (0xDFFF < c.toNat ∧ c.toNat < 0x110000) :=
  c.valid

theorem toRunesFrom_encodeRune (c : Char) (rest : List Byte) :
    toRunesFrom 0 (encodeRune c ++ rest) = c :: toRunesFrom 0 rest := by
  have hv := char_lt c
  unfold encodeRune
  simp only
  by_cases h1 : c.toNat < 0x80
  · simp only [h1, if_true, List.singleton_append]
    have hb : (byte c.toNat).val = c.toNat := byte_val _ (by omega)
    simp [toRunesFrom, decodeRune, hb, h1]
  · by_cases h2 : c.toNat < 0x800
    · simp only [h1, h2, if_true, if_false, List.cons_append, List.nil_append]
      have hb0 : (byte (0xC0 + c.toNat / 64)).val = 0xC0 + c.toNat / 64 :=
        byte_val _ (by omega)
      have hb1 : (byte (0x80 + c.toNat % 64)).val = 0x80 + c.toNat % 64 :=
        byte_val _ (by omega)
      have h0 : ¬ (0xC0 + c.toNat / 64 < 0x80) := by omega
      have ht : twoByte (byte (0xC0 + c.toNat / 64)) (byte (0x80 + c.toNat % 64)) := by
        unfold twoByte isCont
        rw [hb0, hb1]
        omega
      have hval : c.toNat / 64 * 64 + c.toNat % 64 = c.toNat := by omega
      simp [toRunesFrom, decodeRune, hb0, hb1, h0, ht, hval]
    · by_cases h3 : c.toNat < 0x10000
      · simp only [h1, h2, h3, if_true, if_false, List.cons_append, List.nil_append]
        have hb0 : (byte (0xE0 + c.toNat / 4096)).val = 0xE0 + c.toNat / 4096 :=
          byte_val _ (by omega)
        have hb1 : (byte (0x80 + c.toNat / 64 % 64)).val = 0x80 + c.toNat / 64 % 64 :=
          byte_val _ (by omega)
        have hb2 : (byte (0x80 + c.toNat % 64)).val = 0x80 + c.toNat % 64 :=
          byte_val _ (by omega)
        have h0 : ¬ (0xE0 + c.toNat / 4096 < 0x80) := by omega
        have hn2 : ¬ twoByte (byte (0xE0 + c.toNat / 4096))
            (byte (0x80 + c.toNat / 64 % 64)) := by
          unfold twoByte
          rw [hb0]
          omega
        have ht : threeByte (byte (0xE0 + c.toNat / 4096))
            (byte (0x80 + c.toNat / 64 % 64)) (byte (0x80 + c.toNat % 64)) := by
          unfold threeByte isCont
          rw [hb0, hb1, hb2]
          omega
        have hval : c.toNat / 4096 * 4096 + c.toNat / 64 % 64 * 64 + c.toNat % 64
            = c.toNat := by omega
        simp [toRunesFrom, decodeRune, hb0, hb1, hb2, h0, hn2, ht, hval]
      · simp only [h1, h2, h3, if_false, List.cons_append, List.nil_append]
        have hb0 : (byte (0xF0 + c.toNat / 262144)).val = 0xF0 + c.toNat / 262144 :=
          byte_val _ (by omega)
        have hb1 : (byte (0x80 + c.toNat / 4096 % 64)).val = 0x80 + c.toNat / 4096 % 64 :=
          byte_val _ (by omega)
        have hb2 : (byte (0x80 + c.toNat / 64 % 64)).val = 0x80 + c.toNat / 64 % 64 :=
          byte_val _ (by omega)
        have hb3 : (byte (0x80 + c.toNat % 64)).val = 0x80 + c.toNat % 64 :=
          byte_val _ (by omega)
        have h0 : ¬ (0xF0 + c.toNat / 262144 < 0x80) := by omega
        have hn2 : ¬ twoByte (byte (0xF0 + c.toNat / 262144))
            (byte (0x80 + c.toNat / 4096 % 64)) := by
          unfold twoByte
          rw [hb0]
          omega
        have hn3 : ¬ threeByte (byte (0xF0 + c.toNat / 262144))
            (byte (0x80 + c.toNat / 4096 % 64)) (byte (0x80 + c.toNat / 64 % 64)) := by
          unfold threeByte
          rw [hb0]
          omega
        have ht : fourByte (byte (0xF0 + c.toNat / 262144))
            (byte (0x80 + c.toNat / 4096 % 64)) (byte (0x80 + c.toNat / 64 % 64))
            (byte (0x80 + c.toNat % 64)) := by
          unfold fourByte isCont
          rw [hb0, hb1, hb2, hb3]
          omega
        have hval : c.toNat / 262144 * 262144 + c.toNat / 4096 % 64 * 4096 +
            c.toNat / 64 % 64 * 64 + c.toNat % 64 = c.toNat := by omega
        simp [toRunesFrom, decodeRune, hb0, hb1, hb2, hb3, h0, hn2, hn3, ht, hval]

theorem toRunesFrom_flatMap (cs : List Char) :
    toRunesFrom 0 (cs.flatMap encodeRune) = cs := by
  induction cs with
  | nil => rfl
  | cons c rest ih => rw [List.flatMap_cons, toRunesFrom_encodeRune, ih]

theorem GoString.toText_ofString (s : String) : (GoString.ofString s).toText = s := by
  unfold GoString.toText GoString.ofString
  rw [toRunesFrom_flatMap]

theorem GoString.ofString_injective (s t : String)
    (h : GoString.ofString s = GoString.ofString t) : s = t := by
  rw [← GoString.toText_ofString s, h, GoString.toText_ofString]

/-! ## Lemmas on the JSON decoder -/

theorem firstError_none (e : Option GoError) : firstError none e = e := rfl

theorem decodeStringElems_strs (target : String) (s cur : List String) :
    decodeStringElems target cur (s.map JVal.str) = (s, none) := by
  induction s generalizing cur with
  | nil => rfl
  | cons x xs ih => simp [decodeStringElems, decodeString, ih, firstError]

/-- Decoding into a `Results` never sets its `Error` field. -/
theorem decodeResultsMember_error (acc : Results × Option GoError) (kv : String × JVal)
    (h : acc.1.Error = none) : (decodeResultsMember acc kv).1.Error = none := by
  unfold decodeResultsMember
  split
  · exact h
  · split
    · exact h
    · split
      · exact h
      · cases hv : kv.2 <;> simp [decodeErrorField, h]

theorem foldl_decodeResultsMember_error (kvs : List (String × JVal))
    (acc : Results × Option GoError) (h : acc.1.Error = none) :
    (kvs.foldl decodeResultsMember acc).1.Error = none := by
  induction kvs generalizing acc with
  | nil => exact h
  | cons kv rest ih => exact ih _ (decodeResultsMember_error acc kv h)

theorem jsonUnmarshalResults_error (body : Body) (cur r : Results) (h : cur.Error = none)
    (hr : (jsonUnmarshalResults body cur).1 = some r) : r.Error = none := by
  unfold jsonUnmarshalResults at hr
  split at hr
  · cases hr; exact h
  · cases hr
  · cases hr; exact foldl_decodeResultsMember_error _ _ h
  · cases hr; exact h

theorem jsonUnmarshalResults_failed (body : Body) (cur : Results) (err : GoError)
    (h : (jsonUnmarshalResults body cur).2 = some err) :
    ∃ r, (jsonUnmarshalResults body cur).1 = some r := by
  unfold jsonUnmarshalResults at h ⊢
  split
  · exact ⟨_, rfl⟩
  · cases h
  · exact ⟨_, rfl⟩
  · exact ⟨_, rfl⟩

theorem ite_mem_cons_ne {α : Type} (k k1 : String) (l : List String) (x y : α)
    (h : k ≠ k1) : (if k ∈ k1 :: l then x else y) = (if k ∈ l then x else y) := by
  simp [List.mem_cons, h]

theorem decodeNeo4jErrorMember_message (cur : Neo4jError) (m : String) :
    decodeNeo4jErrorMember (cur, none) ("message", .str m)
      = ({ cur with Message := m }, none) := rfl

theorem decodeNeo4jErrorMember_exception (cur : Neo4jError) (e : String) :
    decodeNeo4jErrorMember (cur, none) ("exception", .str e)
      = ({ cur with Exception := e }, none) := rfl

theorem decodeNeo4jErrorMember_fullname (cur : Neo4jError) (f : String) :
    decodeNeo4jErrorMember (cur, none) ("fullname", .str f)
      = ({ cur with Fullname := f }, none) := rfl

theorem decodeNeo4jErrorMember_stacktrace (cur : Neo4jError) (s : List String) :
    decodeNeo4jErrorMember (cur, none) ("stacktrace", .arr (s.map JVal.str))
      = ({ cur with Stacktrace := s }, none) := by
  have h : findField ["message", "exception", "fullname", "stacktrace"] "stacktrace"
      = some "stacktrace" := rfl
  simp [decodeNeo4jErrorMember, h, decodeStrings, decodeStringElems_strs, firstError]

/-- Decoding an object all of whose members are members of one well-formed fault
object: each field that is named takes the value of that object, the others keep
theirs, and no error is recorded. -/
theorem foldl_decodeNeo4jErrorMember_fault (m e f : String) (s : List String)
    (kvs : List (String × JVal)) (cur : Neo4jError)
    (hsub : ∀ kv ∈ kvs, kv ∈ faultMembers m e f s) :
    (kvs.foldl decodeNeo4jErrorMember (cur, none)).2 = none ∧
    (kvs.foldl decodeNeo4jErrorMember (cur, none)).1.Message
      = (if "message" ∈ kvs.map Prod.fst then m else cur.Message) ∧
    (kvs.foldl decodeNeo4jErrorMember (cur, none)).1.Exception
      = (if "exception" ∈ kvs.map Prod.fst then e else cur.Exception) ∧
    (kvs.foldl decodeNeo4jErrorMember (cur, none)).1.Fullname
      = (if "fullname" ∈ kvs.map Prod.fst then f else cur.Fullname) ∧
    (kvs.foldl decodeNeo4jErrorMember (cur, none)).1.Stacktrace
      = (if "stacktrace" ∈ kvs.map Prod.fst then s else cur.Stacktrace) := by
  induction kvs generalizing cur with
  | nil => simp
  | cons kv rest ih =>
    have hrest : ∀ kv ∈ rest, kv ∈ faultMembers m e f s :=
      fun x hx => hsub x (List.mem_cons_of_mem _ hx)
    have hkv := hsub kv (List.mem_cons_self _ _)
    simp only [faultMembers, List.mem_cons, List.mem_singleton, List.not_mem_nil,
      or_false] at hkv
    rcases hkv with rfl | rfl | rfl | rfl
    · rw [List.foldl_cons, decodeNeo4jErrorMember_message]
      obtain ⟨h0, h1, h2, h3, h4⟩ := ih { cur with Message := m } hrest
      refine ⟨h0, ?_, ?_, ?_, ?_⟩
      · rw [h1]; simp
      · rw [h2]; simp only [List.map_cons]
        exact (ite_mem_cons_ne _ _ _ _ _ (by decide)).symm
      · rw [h3]; simp only [List.map_cons]
        exact (ite_mem_cons_ne _ _ _ _ _ (by decide)).symm
      · rw [h4]; simp only [List.map_cons]
        exact (ite_mem_cons_ne _ _ _ _ _ (by decide)).symm
    · rw [List.foldl_cons, decodeNeo4jErrorMember_exception]
      obtain ⟨h0, h1, h2, h3, h4⟩ := ih { cur with Exception := e } hrest
      refine ⟨h0, ?_, ?_, ?_, ?_⟩
      · rw [h1]; simp only [List.map_cons]
        exact (ite_mem_cons_ne _ _ _ _ _ (by decide)).symm
      · rw [h2]; simp
      · rw [h3]; simp only [List.map_cons]
        exact (ite_mem_cons_ne _ _ _ _ _ (by decide)).symm
      · rw [h4]; simp only [List.map_cons]
        exact (ite_mem_cons_ne _ _ _ _ _ (by decide)).symm
    · rw [List.foldl_cons, decodeNeo4jErrorMember_fullname]
      obtain ⟨h0, h1, h2, h3, h4⟩ := ih { cur with Fullname := f } hrest
      refine ⟨h0, ?_, ?_, ?_, ?_⟩
      · rw [h1]; simp only [List.map_cons]
        exact (ite_mem_cons_ne _ _ _ _ _ (by decide)).symm
      · rw [h2]; simp only [List.map_cons]
        exact (ite_mem_cons_ne _ _ _ _ _ (by decide)).symm
      · rw [h3]; simp
      · rw [h4]; simp only [List.map_cons]
        exact (ite_mem_cons_ne _ _ _ _ _ (by decide)).symm
    · rw [List.foldl_cons, decodeNeo4jErrorMember_stacktrace]
      obtain ⟨h0, h1, h2, h3, h4⟩ := ih { cur with Stacktrace := s } hrest
      refine ⟨h0, ?_, ?_, ?_, ?_⟩
      · rw [h1]; simp only [List.map_cons]
        exact (ite_mem_cons_ne _ _ _ _ _ (by decide)).symm
      · rw [h2]; simp only [List.map_cons]
        exact (ite_mem_cons_ne _ _ _ _ _ (by decide)).symm
      · rw [h3]; simp only [List.map_cons]
        exact (ite_mem_cons_ne _ _ _ _ _ (by decide)).symm
      · rw [h4]; simp

/-- A well-formed fault object, its members in any order, decodes into the
`Neo4jError` of its four values. -/
theorem jsonUnmarshalNeo4jError_fault (m e f : String) (s : List String)
    (kvs : List (String × JVal)) (hkvs : kvs.Perm (faultMembers m e f s)) :
    jsonUnmarshalNeo4jError (.doc (.obj kvs)) {}
      = (some { Message := m, Exception := e, Fullname := f, Stacktrace := s }, none) := by
  have hsub : ∀ kv ∈ kvs, kv ∈ faultMembers m e f s := fun kv h => hkvs.subset h
  have hkeys : (kvs.map Prod.fst).Perm ["message", "exception", "fullname", "stacktrace"] :=
    hkvs.map Prod.fst
  obtain ⟨h0, h1, h2, h3, h4⟩ := foldl_decodeNeo4jErrorMember_fault m e f s kvs {} hsub
  have k1 : "message" ∈ kvs.map Prod.fst := hkeys.symm.subset (by simp)
  have k2 : "exception" ∈ kvs.map Prod.fst := hkeys.symm.subset (by simp)
  have k3 : "fullname" ∈ kvs.map Prod.fst := hkeys.symm.subset (by simp)
  have k4 : "stacktrace" ∈ kvs.map Prod.fst := hkeys.symm.subset (by simp)
  rw [if_pos k1] at h1
  rw [if_pos k2] at h2
  rw [if_pos k3] at h3
  rw [if_pos k4] at h4
  unfold jsonUnmarshalNeo4jError
  simp only
  generalize kvs.foldl decodeNeo4jErrorMember (({} : Neo4jError), none) = r at h0 h1 h2 h3 h4
  obtain ⟨⟨a, b, c, d⟩, err⟩ := r
  simp only at h0 h1 h2 h3 h4
  subst h0 h1 h2 h3 h4
  rfl

/-! ## Lemmas on the conversion of floats -/

theorem Float64.value_of_nonneg (m e : Int) (he : 0 ≤ e) :
    Float64.value m e = ((m * 2 ^ e.toNat : Int) : ℚ) := by
  unfold Float64.value
  obtain ⟨k, rfl⟩ := Int.eq_ofNat_of_zero_le he
  simp

theorem Float64.value_of_neg (m e : Int) (he : ¬ 0 ≤ e) :
    Float64.value m e = (m : ℚ) / ((2 ^ (-e).toNat : ℕ) : ℚ) := by
  unfold Float64.value
  obtain ⟨k, hk⟩ := Int.eq_ofNat_of_zero_le (show 0 ≤ -e by omega)
  have : e = -(k : Int) := by omega
  subst this
  simp [div_eq_mul_inv]

theorem truncTowardZero_intCast (n : Int) : truncTowardZero (n : ℚ) = n := by
  unfold truncTowardZero
  split <;> simp

theorem truncTowardZero_div (m : Int) (d : ℕ) (hd : 0 < d) :
    truncTowardZero ((m : ℚ) / (d : ℚ)) = Int.tdiv m d := by
  have hdq : (0 : ℚ) < d := by exact_mod_cast hd
  unfold truncTowardZero
  rcases le_or_lt 0 m with hm | hm
  · have : (0 : ℚ) ≤ (m : ℚ) / d := div_nonneg (by exact_mod_cast hm) hdq.le
    rw [if_pos this, Rat.floor_intCast_div_natCast, Int.tdiv_eq_ediv hm (by omega)]
  · have : ¬ (0 : ℚ) ≤ (m : ℚ) / d := by
      rw [not_le]
      exact div_neg_of_neg_of_pos (by exact_mod_cast hm) hdq
    rw [if_neg this]
    have h1 : ((m : ℚ) / d) = -(((-m : Int) : ℚ) / d) := by push_cast; ring
    rw [h1, Int.ceil_neg, Rat.floor_intCast_div_natCast]
    have h2 : m.tdiv d = -((-m).tdiv d) := by simp
    rw [h2, Int.tdiv_eq_ediv (by omega) (by omega)]

/-- The integer the conversion keeps is the value truncated toward zero. -/
theorem Float64.truncate_eq (m e : Int) :
    Float64.truncate m e = truncTowardZero (Float64.value m e) := by
  unfold Float64.truncate
  split
  · next he => rw [Float64.value_of_nonneg m e he, truncTowardZero_intCast]
  · next he =>
    rw [Float64.value_of_neg m e he, truncTowardZero_div _ _ (by positivity)]
    push_cast
    rfl

theorem Float64.toInt_of_fits (A : Arch) (m e : Int)
    (h : A.fits (truncTowardZero (Float64.value m e))) :
    (Float64.finite m e).toInt A = truncTowardZero (Float64.value m e) := by
  rw [← Float64.truncate_eq] at h ⊢
  simp [Float64.toInt, h]

/-! ## Lemmas on the accessors -/

/-- A loop that appends one element per iteration yields the image of the list. -/
theorem foldlM_append_ok {α β : Type} (step : List β → α → Except Panic (List β))
    (g : α → β) (xs : List α) (acc : List β)
    (h : ∀ x ∈ xs, ∀ acc, step acc x = .ok (acc ++ [g x])) :
    xs.foldlM step acc = .ok (acc ++ xs.map g) := by
  induction xs generalizing acc with
  | nil => simp [pure, Except.pure]
  | cons x rest ih =>
    have hrest : ∀ y ∈ rest, ∀ acc, step acc y = .ok (acc ++ [g y]) :=
      fun y hy => h y (List.mem_cons_of_mem _ hy)
    rw [List.foldlM_cons, h x (List.mem_cons_self _ _) acc]
    show rest.foldlM step (acc ++ [g x]) = _
    rw [ih _ hrest]
    simp

/-- The loop of `AsInts` over a row of numbers that fit appends their truncations. -/
theorem foldlM_asInts (A : Arch) (fs : List (Int × Int)) (acc : List Int)
    (hfit : ∀ p ∈ fs, A.fits (truncTowardZero (Float64.value p.1 p.2))) :
    (fs.map (fun p => JVal.num (.finite p.1 p.2))).foldlM
        (fun ints value => do
          let x ← assertFloat64 value
          pure (ints ++ [x.toInt A])) acc
      = (.ok (acc ++ fs.map (fun p => truncTowardZero (Float64.value p.1 p.2))) :
          Except Panic (List Int)) := by
  rw [List.foldlM_map]
  refine foldlM_append_ok _ _ fs acc (fun p hp acc => ?_)
  show Except.ok (acc ++ [(Float64.finite p.1 p.2).toInt A]) = _
  rw [Float64.toInt_of_fits A p.1 p.2 (hfit p hp)]

/-! ## Lemmas on `Execute` -/

/-- What `Execute` returns once a response has been received and read. -/
theorem Cypher.Execute_of_response (W : World) (σ : Store) (a : Addr) (cy : Cypher)
    (g : Gonorm) (req : JVal) (resp : Response) (body : Body)
    (hc : σ.cyphers.get? a = some cy) (hg : deref σ.gonorms cy.gonorm = .ok g)
    (hreq : jsonMarshalCypher (some cy) = .ok req)
    (hnew : W.newRequest g.cypherUrl req = none)
    (hdo : W.clientDo g.cypherUrl req = .ok resp)
    (hbody : resp.readAll = .ok body) :
    Cypher.Execute W σ (some a) =
      if resp.StatusCode ≠ 200 then
        .ok (some { Error := some (.neo4j (jsonUnmarshalNeo4jError body {}).1) })
      else .ok (jsonUnmarshalResults body {}).1 := by
  unfold Cypher.Execute
  simp only [Option.bind, hc, hreq, deref_of_get? _ _ _ hc, hg, hnew, hdo, hbody]

theorem assertMap_not_obj (v : JVal) (h : ∀ d, v ≠ .obj d) :
    assertMap v = .error .typeAssertion := by
  cases v with
  | obj d => exact absurd rfl (h d)
  | _ => rfl

theorem assertString_not_str (v : JVal) (h : ∀ s, v ≠ .str s) :
    assertString v = .error .typeAssertion := by
  cases v with
  | str s => exact absurd rfl (h s)
  | _ => rfl

theorem assertMap_cases (v : JVal) :
    assertMap v = .error .typeAssertion ∨ ∃ d, assertMap v = .ok d := by
  cases v <;> simp [assertMap]

theorem assertString_cases (v : JVal) :
    assertString v = .error .typeAssertion ∨ ∃ s, assertString v = .ok s := by
  cases v <;> simp [assertString]

/-- On an error-free `Results` whose first row starts with an object, `AsRelationship`
is the sequence of its four type assertions. -/
theorem Results.AsRelationship_of_obj (columns rows rest : List JVal) (kvs : GoMap) :
    Results.AsRelationship
        (some { Columns := columns, Data := .arr (.obj kvs :: rest) :: rows })
      = (do
          let params ← assertMap (mapIndex kvs "data")
          let type ← assertString (mapIndex kvs "type")
          let start ← assertString (mapIndex kvs "start")
          let end_ ← assertString (mapIndex kvs "end")
          pure (some { Params := params, Type_ := type, Start := start, End := end_ },
                none)) := rfl

/-! ## The loops of the plural accessors -/

/-- A loop that appends to its accumulator what `f` yields for each element computes
`traverse f`. -/
theorem foldlM_traverse {α β : Type} (step : List β → α → Except Panic (List β))
    (f : α → Except Panic β) (xs : List α) (acc : List β)
    (h : ∀ x acc, step acc x = (f x).map (fun b => acc ++ [b])) :
    xs.foldlM step acc = (traverse f xs).map (fun bs => acc ++ bs) := by
  induction xs generalizing acc with
  | nil => simp [traverse, pure, Except.pure, Except.map]
  | cons x rest ih =>
    rw [List.foldlM_cons, h x acc]
    unfold traverse
    cases hx : f x with
    | error p => rfl
    | ok b =>
      show rest.foldlM step (acc ++ [b]) = _
      rw [ih]
      cases traverse f rest with
      | error p => rfl
      | ok bs => simp [Except.map]

theorem traverse_map_ok {α β : Type} (f : α → Except Panic β) (g : α → β) (xs : List α)
    (h : ∀ x ∈ xs, f x = .ok (g x)) : traverse f xs = .ok (xs.map g) := by
  induction xs with
  | nil => rfl
  | cons x rest ih =>
    unfold traverse
    rw [h x (List.mem_cons_self _ _), ih (fun y hy => h y (List.mem_cons_of_mem _ hy))]
    rfl

theorem traverse_map_map_ok {α β γ : Type} (f : α → Except Panic β) (h : γ → α)
    (g : γ → β) (xs : List γ) (hyp : ∀ x ∈ xs, f (h x) = .ok (g x)) :
    traverse f (xs.map h) = .ok (xs.map g) := by
  induction xs with
  | nil => rfl
  | cons x rest ih =>
    rw [List.map_cons]
    unfold traverse
    rw [hyp x (List.mem_cons_self _ _), ih (fun y hy => hyp y (List.mem_cons_of_mem _ hy))]
    rfl

/-- If every panic of `f` is a failed type assertion and `f` panics on some element,
`traverse f` panics with a failed type assertion. -/
theorem traverse_typeAssertion {α β : Type} (f : α → Except Panic β) (xs : List α)
    (hf : ∀ x p, f x = .error p → p = .typeAssertion)
    (hbad : ∃ x ∈ xs, ∃ p, f x = .error p) :
    traverse f xs = .error .typeAssertion := by
  induction xs with
  | nil => obtain ⟨x, hx, _⟩ := hbad; cases hx
  | cons x rest ih =>
    unfold traverse
    cases hx : f x with
    | error p => rw [hf x p hx]
    | ok b =>
      obtain ⟨y, hy, q, hq⟩ := hbad
      rcases List.mem_cons.mp hy with rfl | hy
      · rw [hx] at hq; cases hq
      · rw [ih ⟨y, hy, q, hq⟩]

/-- A successful `traverse` with a non-empty result starts from a non-empty list
whose first element yields the first result. -/
theorem traverse_cons_inv {α β : Type} (f : α → Except Panic β) (xs : List α)
    (b : β) (bs : List β) (h : traverse f xs = .ok (b :: bs)) :
    ∃ x rest, xs = x :: rest ∧ f x = .ok b := by
  cases xs with
  | nil => cases h
  | cons x rest =>
    refine ⟨x, rest, rfl, ?_⟩
    unfold traverse at h
    cases hx : f x with
    | error p => rw [hx] at h; cases h
    | ok c =>
      rw [hx] at h
      cases hr : traverse f rest with
      | error p => rw [hr] at h; cases h
      | ok cs => rw [hr] at h; cases h; rfl

theorem Results.AsInts_of_row (A : Arch) (columns rows row : List JVal) :
    Results.AsInts A (some { Columns := columns, Data := .arr row :: rows }) =
      (traverse (intOf A) row).map (fun ints => (ints, none)) := by
  unfold Results.AsInts
  simp only [index, List.get?, assertSlice, bind, Except.bind, pure, Except.pure]
  rw [foldlM_traverse _ (intOf A) row [] (fun x acc => by cases x <;> rfl)]
  cases traverse (intOf A) row <;> rfl

theorem Results.AsStrings_of_row (columns rows row : List JVal) :
    Results.AsStrings (some { Columns := columns, Data := .arr row :: rows }) =
      (traverse assertString row).map (fun strings => (strings, none)) := by
  unfold Results.AsStrings
  simp only [index, List.get?, assertSlice, bind, Except.bind, pure, Except.pure]
  rw [foldlM_traverse _ assertString row [] (fun x acc => by cases x <;> rfl)]
  cases traverse assertString row <;> rfl

theorem Results.AsNodes_of_row (columns rows row : List JVal) :
    Results.AsNodes (some { Columns := columns, Data := .arr row :: rows }) =
      (traverse nodeOf row).map (fun nodes => (some nodes, none)) := by
  unfold Results.AsNodes
  simp only [index, List.get?, assertSlice, bind, Except.bind, pure, Except.pure]
  rw [foldlM_traverse _ nodeOf row [] (fun x acc => by
    cases x with
    | obj kvs => cases h : mapIndex kvs "data" <;> simp [nodeOf, assertMap, h, bind,
        Except.bind, pure, Except.pure, Except.map]
    | _ => rfl)]
  cases traverse nodeOf row <;> rfl

theorem relationshipOf_step (value : JVal) (acc : List Relationship) :
    (do
      let params ← assertMap value >>= fun m => assertMap (mapIndex m "data")
      let type ← assertMap value >>= fun m => assertString (mapIndex m "type")
      let start ← assertMap value >>= fun m => assertString (mapIndex m "start")
      let end_ ← assertMap value >>= fun m => assertString (mapIndex m "end")
      pure (acc ++
        [({ Params := params, Type_ := type, Start := start, End := end_ } :
          Relationship)])) =
      (relationshipOf value).map (fun b => acc ++ [b]) := by
  unfold relationshipOf
  generalize (assertMap value >>= fun m => assertMap (mapIndex m "data")) = e1
  generalize (assertMap value >>= fun m => assertString (mapIndex m "type")) = e2
  generalize (assertMap value >>= fun m => assertString (mapIndex m "start")) = e3
  generalize (assertMap value >>= fun m => assertString (mapIndex m "end")) = e4
  cases e1 <;> cases e2 <;> cases e3 <;> cases e4 <;> rfl

theorem Results.AsRelationships_of_row (columns rows row : List JVal) :
    Results.AsRelationships (some { Columns := columns, Data := .arr row :: rows }) =
      (traverse relationshipOf row).map
        (fun relationships => (some relationships, none)) := by
  have key := foldlM_traverse
    (fun (relationships : List Relationship) (value : JVal) => do
      let params ← assertMap value >>= fun m => assertMap (mapIndex m "data")
      let type ← assertMap value >>= fun m => assertString (mapIndex m "type")
      let start ← assertMap value >>= fun m => assertString (mapIndex m "start")
      let end_ ← assertMap value >>= fun m => assertString (mapIndex m "end")
      pure (relationships ++
        [({ Params := params, Type_ := type, Start := start, End := end_ } :
          Relationship)]))
    relationshipOf row [] (fun x acc => relationshipOf_step x acc)
  unfold Results.AsRelationships
  simp only [index, List.get?, assertSlice, bind, Except.bind, pure, Except.pure] at key ⊢
  rw [key]
  cases traverse relationshipOf row <;> rfl

/-! ## The singular accessors on a first element -/

theorem Results.AsInt_of_row (A : Arch) (columns rows rest : List JVal) (v : JVal) :
    Results.AsInt A (some { Columns := columns, Data := .arr (v :: rest) :: rows }) =
      (intOf A v).map (fun x => (x, none)) := by
  cases v <;> rfl

theorem Results.AsString_of_row (columns rows rest : List JVal) (v : JVal) :
    Results.AsString (some { Columns := columns, Data := .arr (v :: rest) :: rows }) =
      (assertString v).map (fun s => (s, none)) := by
  cases v <;> rfl

theorem Results.AsNode_of_row (columns rows rest : List JVal) (v : JVal) :
    Results.AsNode (some { Columns := columns, Data := .arr (v :: rest) :: rows }) =
      (nodeOf v).map (fun node => (some node, none)) := by
  cases v with
  | obj kvs =>
    show (assertMap (mapIndex kvs "data")).map
        (fun params => (some ({ Params := params } : Node), (none : Option GoError)))
      = Except.map (fun node => (some node, (none : Option GoError)))
          (assertMap (mapIndex kvs "data") >>= fun params =>
            pure ({ Params := params } : Node))
    cases assertMap (mapIndex kvs "data") <;> rfl
  | _ => rfl

theorem Results.AsRelationship_of_row (columns rows rest : List JVal) (v : JVal) :
    Results.AsRelationship (some { Columns := columns, Data := .arr (v :: rest) :: rows }) =
      (relationshipOf v).map (fun relationship => (some relationship, none)) := by
  cases v with
  | obj kvs =>
    rw [Results.AsRelationship_of_obj]
    unfold relationshipOf
    show _ = Except.map (fun relationship => (some relationship, (none : Option GoError)))
      (do
        let params ← assertMap (mapIndex kvs "data")
        let type ← assertString (mapIndex kvs "type")
        let start ← assertString (mapIndex kvs "start")
        let end_ ← assertString (mapIndex kvs "end")
        pure ({ Params := params, Type_ := type, Start := start, End := end_ } :
          Relationship))
    cases assertMap (mapIndex kvs "data") <;> cases assertString (mapIndex kvs "type") <;>
      cases assertString (mapIndex kvs "start") <;>
      cases assertString (mapIndex kvs "end") <;> rfl
  | _ => rfl

/-- The shape of an error-free `Results` on which reading the first row succeeds. -/
theorem Results.data_of_row (r : Results) (row : List JVal)
    (h : index r.Data 0 >>= assertSlice = .ok row) :
    ∃ rows, r.Data = .arr row :: rows := by
  cases hd : r.Data with
  | nil => rw [hd] at h; cases h
  | cons first rows =>
    rw [hd] at h
    cases first with
    | arr xs =>
      have : xs = row := by
        have h2 : (Except.ok xs : Except Panic (List JVal)) = .ok row := h
        cases h2; rfl
      exact ⟨rows, by rw [this]⟩
    | _ => cases h

/-! ## Lemmas on the factory -/

/-- The text that `New` puts for the port is its decimal numeral. -/
theorem toString_eq_decimal (p : Int) : toString p = decimal p := by
  cases p with
  | ofNat n =>
    have h : ¬ (Int.ofNat n < 0) := by simp
    simp only [decimal, h, if_false, Int.natAbs_ofNat]
    show (Nat.toDigits 10 n).asString = "" ++ String.mk (Nat.toDigits 10 n)
    simp [List.asString]
  | negSucc n =>
    have h : Int.negSucc n < 0 := Int.negSucc_lt_zero n
    simp only [decimal, h, if_true]
    rfl

/-! ## Lemmas on the element functions -/

theorem assertString_error (v : JVal) (p : Panic) (h : assertString v = .error p) :
    p = .typeAssertion := by
  cases v <;> first | (cases h; rfl) | cases h

theorem assertFloat64_error (v : JVal) (p : Panic) (h : assertFloat64 v = .error p) :
    p = .typeAssertion := by
  cases v <;> first | (cases h; rfl) | cases h

theorem assertMap_error (v : JVal) (p : Panic) (h : assertMap v = .error p) :
    p = .typeAssertion := by
  cases v <;> first | (cases h; rfl) | cases h

theorem intOf_error (A : Arch) (v : JVal) (p : Panic) (h : intOf A v = .error p) :
    p = .typeAssertion := by
  cases v <;> first | (cases h; rfl) | cases h

theorem nodeOf_of_data (kvs d : GoMap) (h : mapIndex kvs "data" = .obj d) :
    nodeOf (.obj kvs) = .ok { Params := d } := by
  show (assertMap (mapIndex kvs "data") >>= fun params =>
    pure ({ Params := params } : Node)) = _
  rw [h]
  rfl

theorem relationshipOf_of_fields (kvs d : GoMap) (t s e : String)
    (hd : mapIndex kvs "data" = .obj d) (ht : mapIndex kvs "type" = .str t)
    (hs : mapIndex kvs "start" = .str s) (he : mapIndex kvs "end" = .str e) :
    relationshipOf (.obj kvs) = .ok { Params := d, Type_ := t, Start := s, End := e } := by
  show (do
    let params ← assertMap (mapIndex kvs "data")
    let type ← assertString (mapIndex kvs "type")
    let start ← assertString (mapIndex kvs "start")
    let end_ ← assertString (mapIndex kvs "end")
    pure ({ Params := params, Type_ := type, Start := start, End := end_ } :
      Relationship)) = _
  rw [hd, ht, hs, he]
  rfl

theorem nodeOf_error (v : JVal) (p : Panic) (h : nodeOf v = .error p) :
    p = .typeAssertion := by
  cases v with
  | obj kvs =>
    have h2 : (assertMap (mapIndex kvs "data") >>= fun params =>
        pure ({ Params := params } : Node)) = .error p := h
    cases hd : assertMap (mapIndex kvs "data") with
    | error q => rw [hd] at h2; cases h2; exact assertMap_error _ _ hd
    | ok d => rw [hd] at h2; cases h2
  | _ => cases h; rfl

theorem relationshipOf_error (v : JVal) (p : Panic) (h : relationshipOf v = .error p) :
    p = .typeAssertion := by
  cases v with
  | obj kvs =>
    have h2 : (do
        let params ← assertMap (mapIndex kvs "data")
        let type ← assertString (mapIndex kvs "type")
        let start ← assertString (mapIndex kvs "start")
        let end_ ← assertString (mapIndex kvs "end")
        pure ({ Params := params, Type_ := type, Start := start, End := end_ } :
          Relationship)) = .error p := h
    rcases assertMap_cases (mapIndex kvs "data") with h1 | ⟨d, h1⟩ <;>
    rcases assertString_cases (mapIndex kvs "type") with h3 | ⟨t, h3⟩ <;>
    rcases assertString_cases (mapIndex kvs "start") with h4 | ⟨s, h4⟩ <;>
    rcases assertString_cases (mapIndex kvs "end") with h5 | ⟨e, h5⟩ <;>
    rw [h1, h3, h4, h5] at h2 <;> cases h2 <;> rfl
  | _ => cases h; rfl

/-! ## Lemmas relating a plural accessor to its singular one -/

theorem Except.map_ok_inv {α β : Type} (f : α → β) (x : Except Panic α) (b : β)
    (h : x.map f = .ok b) : ∃ a, x = .ok a ∧ f a = b := by
  cases x with
  | error p => cases h
  | ok a => exact ⟨a, rfl, by cases h; rfl⟩

theorem Results.AsInt_of_AsInts (A : Arch) (r : Results) (hr : r.Error = none)
    (x : Int) (xs : List Int) (e : Option GoError)
    (h : Results.AsInts A (some r) = .ok (x :: xs, e)) :
    Results.AsInt A (some r) = .ok (x, none) := by
  obtain ⟨columns, data, err⟩ := r
  cases hr
  cases data with
  | nil => cases (show (Except.error Panic.indexOutOfRange :
      Except Panic (List Int × Option GoError)) = _ from h)
  | cons first rows =>
    cases first with
    | arr row =>
      rw [Results.AsInts_of_row] at h
      obtain ⟨l, hl, hpair⟩ := Except.map_ok_inv _ _ _ h
      cases hpair
      obtain ⟨v, rest, rfl, hv⟩ := traverse_cons_inv _ _ _ _ hl
      rw [Results.AsInt_of_row, hv]
      rfl
    | _ => cases (show (Except.error Panic.typeAssertion :
      Except Panic (List Int × Option GoError)) = _ from h)

theorem Results.AsString_of_AsStrings (r : Results) (hr : r.Error = none)
    (x : String) (xs : List String) (e : Option GoError)
    (h : Results.AsStrings (some r) = .ok (x :: xs, e)) :
    Results.AsString (some r) = .ok (x, none) := by
  obtain ⟨columns, data, err⟩ := r
  cases hr
  cases data with
  | nil => cases (show (Except.error Panic.indexOutOfRange :
      Except Panic (List String × Option GoError)) = _ from h)
  | cons first rows =>
    cases first with
    | arr row =>
      rw [Results.AsStrings_of_row] at h
      obtain ⟨l, hl, hpair⟩ := Except.map_ok_inv _ _ _ h
      cases hpair
      obtain ⟨v, rest, rfl, hv⟩ := traverse_cons_inv _ _ _ _ hl
      rw [Results.AsString_of_row, hv]
      rfl
    | _ => cases (show (Except.error Panic.typeAssertion :
      Except Panic (List String × Option GoError)) = _ from h)

theorem Results.AsNode_of_AsNodes (r : Results) (hr : r.Error = none)
    (x : Node) (xs : List Node) (e : Option GoError)
    (h : Results.AsNodes (some r) = .ok (some (x :: xs), e)) :
    Results.AsNode (some r) = .ok (some x, none) := by
  obtain ⟨columns, data, err⟩ := r
  cases hr
  cases data with
  | nil => cases (show (Except.error Panic.indexOutOfRange :
      Except Panic (Option (List Node) × Option GoError)) = _ from h)
  | cons first rows =>
    cases first with
    | arr row =>
      rw [Results.AsNodes_of_row] at h
      obtain ⟨l, hl, hpair⟩ := Except.map_ok_inv _ _ _ h
      cases hpair
      obtain ⟨v, rest, rfl, hv⟩ := traverse_cons_inv _ _ _ _ hl
      rw [Results.AsNode_of_row, hv]
      rfl
    | _ => cases (show (Except.error Panic.typeAssertion :
      Except Panic (Option (List Node) × Option GoError)) = _ from h)

theorem Results.AsRelationship_of_AsRelationships (r : Results) (hr : r.Error = none)
    (x : Relationship) (xs : List Relationship) (e : Option GoError)
    (h : Results.AsRelationships (some r) = .ok (some (x :: xs), e)) :
    Results.AsRelationship (some r) = .ok (some x, none) := by
  obtain ⟨columns, data, err⟩ := r
  cases hr
  cases data with
  | nil => cases (show (Except.error Panic.indexOutOfRange :
      Except Panic (Option (List Relationship) × Option GoError)) = _ from h)
  | cons first rows =>
    cases first with
    | arr row =>
      rw [Results.AsRelationships_of_row] at h
      obtain ⟨l, hl, hpair⟩ := Except.map_ok_inv _ _ _ h
      cases hpair
      obtain ⟨v, rest, rfl, hv⟩ := traverse_cons_inv _ _ _ _ hl
      rw [Results.AsRelationship_of_row, hv]
      rfl
    | _ => cases (show (Except.error Panic.typeAssertion :
      Except Panic (Option (List Relationship) × Option GoError)) = _ from h)

/-! ## Lemmas on the order of Go strings -/

theorem bytesLess_irrefl (a : List Byte) : bytesLess a a = false := by
  induction a with
  | nil => rfl
  | cons x rest ih => simp [bytesLess, ih]

theorem bytesLess_trans (a b c : List Byte) (hab : bytesLess a b = true)
    (hbc : bytesLess b c = true) : bytesLess a c = true := by
  induction a generalizing b c with
  | nil =>
    cases b with
    | nil => cases hab
    | cons y bs =>
      cases c with
      | nil => cases hbc
      | cons z cs => rfl
  | cons x as ih =>
    cases b with
    | nil => cases hab
    | cons y bs =>
      cases c with
      | nil => cases hbc
      | cons z cs =>
        unfold bytesLess at hab hbc ⊢
        by_cases hxy : x.val < y.val
        · by_cases hyz : y.val < z.val
          · have : x.val < z.val := by omega
            simp [this]
          · by_cases hyz2 : y.val = z.val
            · have : x.val < z.val := by omega
              simp [this]
            · simp [hyz, hyz2] at hbc
        · by_cases hxy2 : x.val = y.val
          · rw [if_neg hxy, if_pos hxy2] at hab
            by_cases hyz : y.val < z.val
            · have : x.val < z.val := by omega
              simp [this]
            · by_cases hyz2 : y.val = z.val
              · rw [if_neg hyz, if_pos hyz2] at hbc
                have h1 : ¬ x.val < z.val := by omega
                have h2 : x.val = z.val := by omega
                rw [if_neg h1, if_pos h2]
                exact ih bs cs hab hbc
              · simp [hyz, hyz2] at hbc
          · simp [hxy, hxy2] at hab

theorem bytesLess_total (a b : List Byte) (hab : bytesLess a b = false) (hne : a ≠ b) :
    bytesLess b a = true := by
  induction a generalizing b with
  | nil =>
    cases b with
    | nil => exact absurd rfl hne
    | cons y bs => cases hab
  | cons x as ih =>
    cases b with
    | nil => rfl
    | cons y bs =>
      unfold bytesLess at hab ⊢
      by_cases hxy : x.val < y.val
      · simp [hxy] at hab
      · by_cases hxy2 : x.val = y.val
        · rw [if_neg hxy, if_pos hxy2] at hab
          have h1 : ¬ y.val < x.val := by omega
          have h2 : y.val = x.val := hxy2.symm
          rw [if_neg h1, if_pos h2]
          have hxe : x = y := Fin.ext hxy2
          exact ih bs hab (fun h => hne (by rw [hxe, h]))
        · have : y.val < x.val := by omega
          simp [this]

theorem GoString.less_irrefl (a : GoString) : ¬ a.less a := by
  unfold GoString.less
  rw [bytesLess_irrefl]
  exact Bool.false_ne_true

theorem GoString.less_trans (a b c : GoString) (hab : a.less b) (hbc : b.less c) :
    a.less c :=
  bytesLess_trans _ _ _ hab hbc

theorem GoString.less_of_not_less (a b : GoString) (hab : ¬ a.less b) (hne : a ≠ b) :
    b.less a := by
  unfold GoString.less at hab ⊢
  apply bytesLess_total
  · cases h : bytesLess a.bytes b.bytes with
    | false => rfl
    | true => exact absurd h hab
  · intro h
    apply hne
    cases a; cases b
    simp only at h
    rw [h]

/-! ## Lemmas on map reads -/

theorem mapIndex_eq_readLast (m : GoMap) (key : String) :
    mapIndex m key = readLast JVal.null m key := rfl

theorem paramIndex_eq_readLast (m : ParamMap) (key : GoString) :
    paramIndex m key = readLast GoVal.null m key := rfl

theorem readLast_foldl_init {κ β : Type} [DecidableEq κ] (d : β) (key : κ)
    (l : List (κ × β)) (init : β) :
    l.foldl (fun acc kv => if kv.1 = key then kv.2 else acc) init =
      if key ∈ l.map Prod.fst then readLast d l key else init := by
  induction l generalizing init d with
  | nil => simp
  | cons x rest ih =>
    unfold readLast
    rw [List.foldl_cons, List.foldl_cons, ih d, ih d (if x.1 = key then x.2 else d)]
    by_cases hrest : key ∈ rest.map Prod.fst
    · have hm : key ∈ (x :: rest).map Prod.fst := List.mem_cons_of_mem _ hrest
      rw [if_pos hrest, if_pos hrest, if_pos hm]
    · by_cases hx : x.1 = key
      · have hm : key ∈ (x :: rest).map Prod.fst := by
          rw [List.map_cons, ← hx]; exact List.mem_cons_self _ _
        rw [if_neg hrest, if_neg hrest, if_pos hm, if_pos hx, if_pos hx]
      · have hm : key ∉ (x :: rest).map Prod.fst := by
          rw [List.map_cons]
          intro h
          rcases List.mem_cons.mp h with h | h
          · exact hx h.symm
          · exact hrest h
        rw [if_neg hrest, if_neg hm, if_neg hx]

theorem readLast_cons {κ β : Type} [DecidableEq κ] (d : β) (x : κ × β)
    (l : List (κ × β)) (key : κ) :
    readLast d (x :: l) key =
      if key ∈ l.map Prod.fst then readLast d l key
      else if x.1 = key then x.2 else d := by
  show l.foldl (fun acc kv => if kv.1 = key then kv.2 else acc)
    (if x.1 = key then x.2 else d) = _
  rw [readLast_foldl_init d]

theorem readLast_absent {κ β : Type} [DecidableEq κ] (d : β) (l : List (κ × β))
    (key : κ) (h : key ∉ l.map Prod.fst) : readLast d l key = d := by
  have := readLast_foldl_init d key l d
  rw [if_neg h] at this
  exact this

/-! ## Lemmas on the key order of `json.Marshal` -/

theorem mem_keys_sortedInsert {α : Type} (k : GoString) (v : α) (S : List (GoString × α))
    (key : GoString) :
    key ∈ (sortedInsert k v S).map Prod.fst ↔ key = k ∨ key ∈ S.map Prod.fst := by
  induction S with
  | nil => simp [sortedInsert]
  | cons x rest ih =>
    obtain ⟨k1, v1⟩ := x
    unfold sortedInsert
    by_cases h1 : k.less k1
    · rw [if_pos h1]
      simp
    · by_cases h2 : k = k1
      · subst h2
        rw [if_neg h1, if_pos rfl]
        simp
      · rw [if_neg h1, if_neg h2]
        simp only [List.map_cons, List.mem_cons, ih]
        tauto

theorem sorted_sortedInsert {α : Type} (k : GoString) (v : α) (S : List (GoString × α))
    (hS : (S.map Prod.fst).Pairwise GoString.less) :
    ((sortedInsert k v S).map Prod.fst).Pairwise GoString.less := by
  induction S with
  | nil => simp [sortedInsert]
  | cons x rest ih =>
    obtain ⟨k1, v1⟩ := x
    rw [List.map_cons, List.pairwise_cons] at hS
    obtain ⟨hlt, hrest⟩ := hS
    unfold sortedInsert
    by_cases h1 : k.less k1
    · rw [if_pos h1]
      simp only [List.map_cons, List.pairwise_cons]
      refine ⟨?_, hlt, hrest⟩
      intro y hy
      rcases List.mem_cons.mp hy with rfl | hy
      · exact h1
      · exact GoString.less_trans _ _ _ h1 (hlt y hy)
    · by_cases h2 : k = k1
      · subst h2
        rw [if_neg h1, if_pos rfl]
        simp only [List.map_cons, List.pairwise_cons]
        exact ⟨hlt, hrest⟩
      · rw [if_neg h1, if_neg h2]
        simp only [List.map_cons, List.pairwise_cons]
        refine ⟨?_, ih hrest⟩
        intro y hy
        rcases (mem_keys_sortedInsert k v rest y).mp hy with rfl | hy
        · exact GoString.less_of_not_less _ _ h1 h2
        · exact hlt y hy

theorem readLast_sortedInsert {β : Type} (d : β) (k : GoString) (v : β)
    (S : List (GoString × β)) (hS : (S.map Prod.fst).Pairwise GoString.less)
    (key : GoString) :
    readLast d (sortedInsert k v S) key = if k = key then v else readLast d S key := by
  induction S with
  | nil => rfl
  | cons x rest ih =>
    obtain ⟨k1, v1⟩ := x
    rw [List.map_cons, List.pairwise_cons] at hS
    obtain ⟨hlt, hrest⟩ := hS
    unfold sortedInsert
    by_cases h1 : k.less k1
    · rw [if_pos h1, readLast_cons]
      by_cases hk : k = key
      · subst hk
        have hnot : k ∉ ((k1, v1) :: rest).map Prod.fst := by
          intro hmem
          rcases List.mem_cons.mp hmem with h | h
          · exact absurd h1 (by rw [h]; exact GoString.less_irrefl _)
          · exact absurd (GoString.less_trans _ _ _ h1 (hlt k h)) (GoString.less_irrefl _)
        rw [if_neg hnot, if_pos rfl, if_pos rfl]
      · by_cases hmem : key ∈ ((k1, v1) :: rest).map Prod.fst
        · rw [if_pos hmem, if_neg hk]
        · rw [if_neg hmem, if_neg (show ¬ (k, v).1 = key from hk), if_neg hk,
            readLast_absent _ _ _ hmem]
    · by_cases h2 : k = k1
      · subst h2
        rw [if_neg h1, if_pos rfl, readLast_cons, readLast_cons]
        by_cases hk : k = key
        · subst hk
          have hnot : k ∉ rest.map Prod.fst :=
            fun hmem => absurd (hlt k hmem) (GoString.less_irrefl _)
          rw [if_neg hnot, if_pos rfl, if_pos rfl]
        · by_cases hr : key ∈ rest.map Prod.fst
          · rw [if_pos hr, if_neg hk, if_pos hr]
          · rw [if_neg hr, if_neg (show ¬ (k, v).1 = key from hk), if_neg hk, if_neg hr,
              if_neg (show ¬ (k, v1).1 = key from hk)]
      · rw [if_neg h1, if_neg h2, readLast_cons, ih hrest, readLast_cons]
        have hiff := mem_keys_sortedInsert k v rest key
        by_cases hk : k = key
        · rw [if_pos (hiff.mpr (Or.inl hk.symm)), if_pos hk, if_pos hk]
        · by_cases hr : key ∈ rest.map Prod.fst
          · rw [if_pos (hiff.mpr (Or.inr hr)), if_neg hk, if_neg hk, if_pos hr]
          · have hm : key ∉ (sortedInsert k v rest).map Prod.fst :=
              fun h => (hiff.mp h).elim (fun e => hk e.symm) hr
            rw [if_neg hm, if_neg hk, if_neg hr]

/-- Folding insertions into a sorted list keeps it sorted, binds the keys of both
lists, and reads as the insertions read, then as the initial list. -/
theorem foldl_sortedInsert {β : Type} (d : β) (l S : List (GoString × β))
    (hS : (S.map Prod.fst).Pairwise GoString.less) :
    ((l.foldl (fun acc kv => sortedInsert kv.1 kv.2 acc) S).map Prod.fst).Pairwise
        GoString.less ∧
    (∀ key, key ∈ (l.foldl (fun acc kv => sortedInsert kv.1 kv.2 acc) S).map Prod.fst ↔
      key ∈ l.map Prod.fst ∨ key ∈ S.map Prod.fst) ∧
    (∀ key, readLast d (l.foldl (fun acc kv => sortedInsert kv.1 kv.2 acc) S) key =
      if key ∈ l.map Prod.fst then readLast d l key else readLast d S key) := by
  induction l generalizing S with
  | nil => exact ⟨hS, fun key => by simp, fun key => by simp⟩
  | cons x rest ih =>
    obtain ⟨h1, h2, h3⟩ := ih (sortedInsert x.1 x.2 S) (sorted_sortedInsert x.1 x.2 S hS)
    rw [List.foldl_cons]
    refine ⟨h1, fun key => ?_, fun key => ?_⟩
    · rw [h2, mem_keys_sortedInsert, List.map_cons, List.mem_cons]
      tauto
    · rw [h3, readLast_sortedInsert d x.1 x.2 S hS, readLast_cons]
      by_cases hr : key ∈ rest.map Prod.fst
      · have hm : key ∈ (x :: rest).map Prod.fst := List.mem_cons_of_mem _ hr
        rw [if_pos hr, if_pos hm, if_pos hr]
      · by_cases hx : x.1 = key
        · have hm : key ∈ (x :: rest).map Prod.fst := by
            rw [List.map_cons, ← hx]; exact List.mem_cons_self _ _
          rw [if_neg hr, if_pos hx, if_pos hm, if_neg hr, if_pos hx]
        · have hm : key ∉ (x :: rest).map Prod.fst := by
            rw [List.map_cons]
            intro h
            rcases List.mem_cons.mp h with h | h
            · exact hx h.symm
            · exact hr h
          rw [if_neg hr, if_neg hx, if_neg hm]

/-- The entries of a map come in the order of their keys, bind the keys of the map
and read as the map reads. -/
theorem mapEntries_spec {β : Type} (d : β) (l : List (GoString × β)) :
    ((mapEntries l).map Prod.fst).Pairwise GoString.less ∧
    (∀ key, key ∈ (mapEntries l).map Prod.fst ↔ key ∈ l.map Prod.fst) ∧
    (∀ key, readLast d (mapEntries l) key = readLast d l key) := by
  obtain ⟨h1, h2, h3⟩ := foldl_sortedInsert d l [] (by simp)
  refine ⟨h1, fun key => ?_, fun key => ?_⟩
  · unfold mapEntries
    rw [h2]
    simp
  · unfold mapEntries
    rw [h3]
    by_cases h : key ∈ l.map Prod.fst
    · rw [if_pos h]
    · rw [if_neg h, readLast_absent d l key h]
      rfl

theorem sortedInsert_map {α β : Type} (f : α → β) (k : GoString) (v : α)
    (S : List (GoString × α)) :
    sortedInsert k (f v) (S.map (fun p => (p.1, f p.2)))
      = (sortedInsert k v S).map (fun p => (p.1, f p.2)) := by
  induction S with
  | nil => rfl
  | cons x rest ih =>
    obtain ⟨k1, v1⟩ := x
    rw [List.map_cons]
    unfold sortedInsert
    by_cases h1 : k.less k1
    · rw [if_pos h1, if_pos h1]
      rfl
    · by_cases h2 : k = k1
      · rw [if_neg h1, if_neg h1, if_pos h2, if_pos h2]
        rfl
      · rw [if_neg h1, if_neg h1, if_neg h2, if_neg h2, ih]
        rfl

theorem mapEntries_map {α β : Type} (f : α → β) (l : List (GoString × α)) :
    mapEntries (l.map (fun p => (p.1, f p.2)))
      = (mapEntries l).map (fun p => (p.1, f p.2)) := by
  unfold mapEntries
  have key : ∀ (S : List (GoString × α)),
      (l.map (fun p => (p.1, f p.2))).foldl (fun acc kv => sortedInsert kv.1 kv.2 acc)
          (S.map (fun p => (p.1, f p.2)))
        = (l.foldl (fun acc kv => sortedInsert kv.1 kv.2 acc) S).map
            (fun p => (p.1, f p.2)) := by
    induction l with
    | nil => intro S; rfl
    | cons x rest ih =>
      intro S
      rw [List.map_cons, List.foldl_cons, List.foldl_cons]
      dsimp only
      rw [sortedInsert_map, ih]
  exact key []

theorem sequenceEntries_ok (S : List (GoString × JVal)) :
    sequenceEntries (S.map (fun p => (p.1, (Except.ok p.2 : Except GoError JVal))))
      = .ok S := by
  induction S with
  | nil => rfl
  | cons x rest ih =>
    rw [List.map_cons]
    unfold sequenceEntries
    simp only [ih]

/-! ## Lemmas on the keys that `json.Marshal` writes -/

theorem GoString.valid_ofString (s : String) : (GoString.ofString s).Valid := by
  unfold GoString.Valid
  rw [GoString.toText_ofString]

/-- On a valid key, the text written is `key` exactly when the key encodes `key`. -/
theorem GoString.toText_eq_iff (k : GoString) (hk : k.Valid) (key : String) :
    k.toText = key ↔ k = GoString.ofString key := by
  constructor
  · intro h
    rw [← h]
    exact hk.symm
  · intro h
    rw [h, GoString.toText_ofString]

/-- The keys written for bindings with valid keys are the texts that the keys
encode. -/
theorem mem_keys_map_toText {β : Type} (L : List (GoString × β))
    (hL : ∀ p ∈ L, p.1.Valid) (key : String) :
    key ∈ (L.map (fun p => (p.1.toText, p.2))).map Prod.fst ↔
      GoString.ofString key ∈ L.map Prod.fst := by
  simp only [List.mem_map]
  constructor
  · rintro ⟨q, ⟨p, hp, rfl⟩, hq⟩
    exact ⟨p, hp, ((GoString.toText_eq_iff p.1 (hL p hp) key).mp hq)⟩
  · rintro ⟨p, hp, hq⟩
    exact ⟨(p.1.toText, p.2), ⟨p, hp, rfl⟩,
      (GoString.toText_eq_iff p.1 (hL p hp) key).mpr hq⟩

/-- Reading a written object at a text is reading the bindings at its encoding, when
the keys are valid. -/
theorem mapIndex_map_toText (L : List (GoString × JVal)) (hL : ∀ p ∈ L, p.1.Valid)
    (key : String) :
    mapIndex (L.map (fun p => (p.1.toText, p.2))) key
      = readLast JVal.null L (GoString.ofString key) := by
  have gen : ∀ (init : JVal),
      (L.map (fun p => (p.1.toText, p.2))).foldl
          (fun acc kv => if kv.1 = key then kv.2 else acc) init
        = L.foldl (fun acc kv => if kv.1 = GoString.ofString key then kv.2 else acc)
            init := by
    induction L with
    | nil => intro init; rfl
    | cons x rest ih =>
      intro init
      rw [List.map_cons, List.foldl_cons, List.foldl_cons,
        ih (fun p hp => hL p (List.mem_cons_of_mem _ hp))]
      have hx := GoString.toText_eq_iff x.1 (hL x (List.mem_cons_self _ _)) key
      by_cases h : x.1 = GoString.ofString key
      · rw [if_pos (show (x.1.toText, x.2).1 = key from hx.mpr h), if_pos h]
      · rw [if_neg (show ¬ (x.1.toText, x.2).1 = key from fun e => h (hx.mp e)), if_neg h]
  exact gen _

/-- Maps whose insertions agree key by key and are deeply equal value by value read
deeply equal values. -/
theorem readLast_deepEqual (key : GoString) (a : ParamMap) (b : List (GoString × JVal))
    (h : List.Forall₂ (fun x y => x.1 = y.1 ∧ DeepEqual x.2 y.2) a b) :
    DeepEqual (paramIndex a key) (readLast JVal.null b key) := by
  have gen : ∀ (i : GoVal) (j : JVal), DeepEqual i j →
      DeepEqual (a.foldl (fun acc kv => if kv.1 = key then kv.2 else acc) i)
        (b.foldl (fun acc kv => if kv.1 = key then kv.2 else acc) j) := by
    induction h with
    | nil => intro i j hij; exact hij
    | cons hxy _ ih =>
      intro i j hij
      rw [List.foldl_cons, List.foldl_cons]
      apply ih
      rw [hxy.1]
      split
      · exact hxy.2
      · exact hij
  exact gen _ _ DeepEqual.null

theorem keys_eq_of_forall₂ (a : ParamMap) (b : List (GoString × JVal))
    (h : List.Forall₂ (fun x y => x.1 = y.1 ∧ DeepEqual x.2 y.2) a b) :
    a.map Prod.fst = b.map Prod.fst := by
  induction h with
  | nil => rfl
  | cons hxy _ ih => rw [List.map_cons, List.map_cons, hxy.1, ih]

/-! ## `json.Marshal` on representable values -/

mutual
/-- On a representable value `json.Marshal` succeeds, and what it writes is deeply
equal to the value. -/
theorem marshalValue_deepEqual : (v : GoVal) → Representable v →
    ∃ w, marshalValue v = .ok w ∧ DeepEqual v w
  | .null, _ => ⟨.null, rfl, DeepEqual.null⟩
  | .bool b, _ => ⟨.bool b, rfl, DeepEqual.bool b⟩
  | .num x, h => by
    cases h with
    | num m e => exact ⟨.num (.finite m e), rfl, DeepEqual.num m e⟩
  | .int n, _ => ⟨.num (.finite n 0), rfl, DeepEqual.int n⟩
  | .str s, h => by
    have hs : s.Valid := by cases h; assumption
    refine ⟨.str s.toText, rfl, ?_⟩
    have hd := DeepEqual.str s.toText
    rw [show GoString.ofString s.toText = s from hs] at hd
    exact hd
  | .bytes b, h => by cases h
  | .nilSlice, h => by cases h
  | .nilMap, h => by cases h
  | .other w, h => by cases h
  | .arr xs, h => by
    have hx : ∀ x ∈ xs, Representable x := by cases h; assumption
    obtain ⟨ys, hys, hd⟩ := marshalElems_deepEqual xs hx
    refine ⟨.arr ys, ?_, DeepEqual.arr _ _ hd⟩
    rw [marshalValue, hys]
  | .obj kvs, h => by
    have hvalid : ∀ kv ∈ kvs, kv.1.Valid := by cases h; assumption
    have hx : ∀ kv ∈ kvs, Representable kv.2 := by cases h; assumption
    obtain ⟨kvs2, hk, hd⟩ := marshalBindings_deepEqual kvs hx
    obtain ⟨-, hkeys, hread⟩ := mapEntries_spec JVal.null kvs2
    have hkk := keys_eq_of_forall₂ kvs kvs2 hd
    have hvalid2 : ∀ p ∈ mapEntries kvs2, p.1.Valid := by
      intro p hp
      have h1 : p.1 ∈ kvs.map Prod.fst := by
        rw [hkk]
        exact (hkeys p.1).mp (List.mem_map_of_mem _ hp)
      obtain ⟨kv, hkv, he⟩ := List.mem_map.mp h1
      rw [← he]
      exact hvalid kv hkv
    refine ⟨.obj ((mapEntries kvs2).map (fun p => (p.1.toText, p.2))), ?_,
      DeepEqual.obj _ _ hvalid (fun key => ?_) (fun key => ?_)⟩
    · rw [marshalValue, hk, mapEntries_map, sequenceEntries_ok]
    · rw [mem_keys_map_toText _ hvalid2, hkeys, hkk]
    · rw [mapIndex_map_toText _ hvalid2, hread]
      exact readLast_deepEqual _ kvs kvs2 hd
/-- The elements of a slice of representable values are written one by one. -/
theorem marshalElems_deepEqual : (xs : List GoVal) → (∀ x ∈ xs, Representable x) →
    ∃ ys, marshalElems xs = .ok ys ∧ List.Forall₂ DeepEqual xs ys
  | [], _ => ⟨[], rfl, List.Forall₂.nil⟩
  | x :: rest, h => by
    obtain ⟨y, hy, hd⟩ := marshalValue_deepEqual x (h x (List.mem_cons_self _ _))
    obtain ⟨ys, hys, hds⟩ :=
      marshalElems_deepEqual rest (fun z hz => h z (List.mem_cons_of_mem _ hz))
    refine ⟨y :: ys, ?_, List.Forall₂.cons hd hds⟩
    rw [marshalElems, hy, hys]
/-- The values of the insertions of a map of representable values are written one by
one, under the same keys. -/
theorem marshalBindings_deepEqual : (kvs : List (GoString × GoVal)) →
    (∀ kv ∈ kvs, Representable kv.2) →
    ∃ kvs2 : List (GoString × JVal),
      marshalBindings kvs
        = kvs2.map (fun p => (p.1, (Except.ok p.2 : Except GoError JVal))) ∧
      List.Forall₂ (fun x y => x.1 = y.1 ∧ DeepEqual x.2 y.2) kvs kvs2
  | [], _ => ⟨[], rfl, List.Forall₂.nil⟩
  | (k, v) :: rest, h => by
    obtain ⟨w, hw, hd⟩ := marshalValue_deepEqual v (h (k, v) (List.mem_cons_self _ _))
    obtain ⟨ws, hws, hds⟩ :=
      marshalBindings_deepEqual rest (fun z hz => h z (List.mem_cons_of_mem _ hz))
    refine ⟨(k, w) :: ws, ?_, List.Forall₂.cons ⟨rfl, hd⟩ hds⟩
    rw [marshalBindings, hw, hws]
    rfl
end

/-! ## Lemmas on the request -/

/-- The `Cypher` that `g.Cypher(query).On(m)` leaves in the store. -/
theorem Cypher.On_after_Cypher (σ : Store) (g : Option Addr) (query : GoString)
    (m : Option ParamMap) :
    ∃ σ2, Cypher.On (Gonorm.Cypher σ g query).1 (Gonorm.Cypher σ g query).2 m
        = .ok (σ2, (Gonorm.Cypher σ g query).2) ∧
      σ2.cyphers.get? σ.cyphers.length
        = some { Query := query, Params := m, gonorm := g } ∧
      σ2.gonorms = σ.gonorms := by
  have h1 : (σ.cyphers ++ [({ Query := query, gonorm := g } : Cypher)]).get?
      σ.cyphers.length = some { Query := query, gonorm := g } := by
    simp
  refine ⟨⟨σ.gonorms, (σ.cyphers ++ [({ Query := query, gonorm := g } : Cypher)]).set
      σ.cyphers.length { Query := query, Params := m, gonorm := g }⟩, ?_, ?_, rfl⟩
  · simp only [Gonorm.Cypher, Cypher.On, h1]
  · simp

/-- What `Execute` returns when `client.Do` fails. -/
theorem Cypher.Execute_of_clientDo_error (W : World) (σ : Store) (a : Addr) (cy : Cypher)
    (g : Gonorm) (req : JVal) (err : GoError)
    (hc : σ.cyphers.get? a = some cy) (hg : deref σ.gonorms cy.gonorm = .ok g)
    (hreq : jsonMarshalCypher (some cy) = .ok req)
    (hnew : W.newRequest g.cypherUrl req = none)
    (hdo : W.clientDo g.cypherUrl req = .error err) :
    Cypher.Execute W σ (some a) = .ok (some { Error := some err }) := by
  unfold Cypher.Execute
  simp only [Option.bind, hc, hreq, deref_of_get? _ _ _ hc, hg, hnew, hdo]

/-- The body that `json.Marshal` writes for a `Cypher` with representable
parameters: "params" is null for the nil map, and deeply equal to the map otherwise. -/
theorem jsonMarshalCypher_representable (q : GoString) (m : Option ParamMap)
    (g : Option Addr) (hm : ∀ kvs, m = some kvs → Representable (.obj kvs)) :
    ∃ params, jsonMarshalCypher (some { Query := q, Params := m, gonorm := g })
        = .ok (.obj [("query", .str q.toText), ("params", params)]) ∧
      (m = none → params = .null) ∧
      ∀ kvs, m = some kvs → DeepEqual (.obj kvs) params := by
  cases m with
  | none => exact ⟨.null, rfl, fun _ => rfl, fun kvs h => Option.noConfusion h⟩
  | some kvs =>
    obtain ⟨w, hw, hd⟩ := marshalValue_deepEqual (.obj kvs) (hm kvs rfl)
    refine ⟨w, ?_, fun h => Option.noConfusion h, fun kvs2 h => ?_⟩
    · simp only [jsonMarshalCypher, hw]
    · cases h
      exact hd

/-- A Go string is valid UTF-8 exactly when it is the encoding of a text. -/
theorem GoString.valid_iff (s : GoString) : s.Valid ↔ ∃ t : String, s = GoString.ofString t :=
  ⟨fun h => ⟨s.toText, h.symm⟩, fun ⟨t, h⟩ => by rw [h]; exact GoString.valid_ofString t⟩

/-- What `json.Marshal` writes for parameters of several kinds: the members come in
the byte order of the keys, whatever the order of insertion; an integer is written as
a number; a `[]byte` as a base-64 string; a nil slice as null; a string that is not
valid UTF-8 with U+FFFD for each offending byte. -/
theorem jsonMarshalCypher_example :
    jsonMarshalCypher (some { Query := "RETURN 1",
                              Params := some [("name2", .str "Matt"), ("n", .int 7),
                                              ("b", .bytes [byte 1, byte 2]),
                                              ("s", .nilSlice),
                                              ("x", .str ⟨[byte 0x61, byte 0xFF]⟩),
                                              ("name1", .str "Mike")],
                              gonorm := some 0 })
      = .ok (.obj [("query", .str "RETURN 1"),
                   ("params", .obj [("b", .str "AQI="), ("n", .num (.finite 7 0)),
                                    ("name1", .str "Mike"), ("name2", .str "Matt"),
                                    ("s", .null),
                                    ("x", .str (String.mk [Char.ofNat 0x61, replacement]))])]) := by
  rfl

/-! ## Lemmas on the decoding of a fault body -/

/-- The pointer that `json.Unmarshal(body, &neo4jError)` leaves: nil exactly when the
body is the JSON literal null, and the zero `Neo4jError` when the body is not JSON or
is JSON other than an object. -/
theorem jsonUnmarshalNeo4jError_pointer (body : Body) :
    (body = .invalid → (jsonUnmarshalNeo4jError body {}).1 = some {}) ∧
    (∀ v, body = .doc v → v ≠ .null → (∀ kvs, v ≠ .obj kvs) →
      (jsonUnmarshalNeo4jError body {}).1 = some {}) ∧
    (∀ v, body = .doc v → v ≠ .null → ∃ f, (jsonUnmarshalNeo4jError body {}).1 = some f) ∧
    (body = .doc .null → (jsonUnmarshalNeo4jError body {}).1 = none) := by
  refine ⟨?_, ?_, ?_, ?_⟩
  · rintro rfl; rfl
  · rintro v rfl hnull hobj
    cases v with
    | null => exact absurd rfl hnull
    | obj kvs => exact absurd rfl (hobj kvs)
    | _ => rfl
  · rintro v rfl hnull
    cases v with
    | null => exact absurd rfl hnull
    | _ => exact ⟨_, rfl⟩
  · rintro rfl; rfl

/-! ## Error propagation by the accessors -/

/-- Claim C1: on a `Results` whose `Error` is set to `err`, whatever `Columns` and
`Data` hold, each of the eight accessors returns without a panic, with its fixed
placeholder (-1, an empty int slice, the empty string, an empty string slice, a nil
node, a nil node slice, a nil relationship, a nil relationship slice) and with `err`
itself. -/
theorem C1_accessors_propagate_error (A : Arch) (columns data : List JVal) (err : GoError) :
    Results.AsInt A (some { Columns := columns, Data := data, Error := some err })
        = .ok (-1, some err) ∧
    Results.AsInts A (some { Columns := columns, Data := data, Error := some err })
        = .ok ([], some err) ∧
    Results.AsString (some { Columns := columns, Data := data, Error := some err })
        = .ok ("", some err) ∧
    Results.AsStrings (some { Columns := columns, Data := data, Error := some err })
        = .ok ([], some err) ∧
    Results.AsNode (some { Columns := columns, Data := data, Error := some err })
        = .ok (none, some err) ∧
    Results.AsNodes (some { Columns := columns, Data := data, Error := some err })
        = .ok (none, some err) ∧
    Results.AsRelationship (some { Columns := columns, Data := data, Error := some err })
        = .ok (none, some err) ∧
    Results.AsRelationships (some { Columns := columns, Data := data, Error := some err })
        = .ok (none, some err) := by
  refine ⟨?_, ?_, ?_, ?_, ?_, ?_, ?_, ?_⟩ <;> rfl

/-! ## Execute -/

/-- Claim C2 (the code departs from it): when the response has status 200 and
`json.Unmarshal` reports that the body does not decode into a `Results` (for one, a
body that is not JSON), `Execute` still returns a `Results` whose `Error` is nil:
the decoding error is dropped. -/
theorem C2_execute_drops_decode_error (W : World) (σ : Store) (a : Addr) (cy : Cypher)
    (g : Gonorm) (req : JVal) (resp : Response) (body : Body) (err : GoError)
    (hc : σ.cyphers.get? a = some cy) (hg : deref σ.gonorms cy.gonorm = .ok g)
    (hreq : jsonMarshalCypher (some cy) = .ok req)
    (hnew : W.newRequest g.cypherUrl req = none)
    (hdo : W.clientDo g.cypherUrl req = .ok resp)
    (hstatus : resp.StatusCode = 200)
    (hbody : resp.readAll = .ok body)
    (hfail : (jsonUnmarshalResults body {}).2 = some err) :
    ∃ r, Cypher.Execute W σ (some a) = .ok (some r) ∧ r.Error = none := by
  obtain ⟨r, hr⟩ := jsonUnmarshalResults_failed body {} err hfail
  refine ⟨r, ?_, jsonUnmarshalResults_error body {} r rfl hr⟩
  rw [Cypher.Execute_of_response W σ a cy g req resp body hc hg hreq hnew hdo hbody,
    if_neg (not_not.mpr hstatus), hr]

/-- Claim C2 at a failing input: a response with status 200 whose body is not JSON.
`json.Unmarshal` fails with a syntax error, `Execute` returns a `Results` with no
error set, and `AsInt` on it panics with an index out of range. -/
theorem C2_execute_drops_decode_error_witness :
    (jsonUnmarshalResults Body.invalid {}).2 = some GoError.jsonSyntax ∧
    ∃ r, Cypher.Execute (World.answering 200 Body.invalid) (Store.withQuery "RETURN 1")
        (some 0) = .ok (some r) ∧ r.Error = none ∧
      Results.AsInt { intBits := 64, convOverflow := fun _ => 0 } (some r)
        = .error .indexOutOfRange := by
  refine ⟨rfl, ?_⟩
  obtain ⟨r, hr, herr⟩ :=
    C2_execute_drops_decode_error (World.answering 200 Body.invalid)
      (Store.withQuery "RETURN 1") 0
      { Query := "RETURN 1", gonorm := some 0 }
      { Host := "http://localhost", Port := 7474,
        cypherUrl := "http://localhost:7474/db/data/cypher" }
      (.obj [("query", .str "RETURN 1"), ("params", .null)])
      { StatusCode := 200, readAll := .ok Body.invalid }
      Body.invalid GoError.jsonSyntax rfl rfl rfl rfl rfl rfl rfl rfl
  refine ⟨r, hr, herr, ?_⟩
  have hzero : Cypher.Execute (World.answering 200 Body.invalid)
      (Store.withQuery "RETURN 1") (some 0) = .ok (some {}) := rfl
  rw [hzero] at hr
  cases hr
  rfl

/-- Claim C3: when the status is not 200 and the body is a well-formed fault object
with message `m`, exception `e`, fullname `f` and stacktrace `s` (its members in any
order), `Execute` returns a `Results` whose `Error` is the `Neo4jError` of these four
values, whose `Error()` text is `m`, whose `Data` and `Columns` are empty, and on
which `AsInt` returns -1 and that same error. -/
theorem C3_fault_body_becomes_error (A : Arch) (W : World) (σ : Store) (a : Addr)
    (cy : Cypher) (g : Gonorm) (req : JVal) (resp : Response)
    (kvs : List (String × JVal)) (m e f : String) (s : List String)
    (hc : σ.cyphers.get? a = some cy) (hg : deref σ.gonorms cy.gonorm = .ok g)
    (hreq : jsonMarshalCypher (some cy) = .ok req)
    (hnew : W.newRequest g.cypherUrl req = none)
    (hdo : W.clientDo g.cypherUrl req = .ok resp)
    (hstatus : resp.StatusCode ≠ 200)
    (hbody : resp.readAll = .ok (.doc (.obj kvs)))
    (hkvs : kvs.Perm (faultMembers m e f s)) :
    ∃ r, Cypher.Execute W σ (some a) = .ok (some r) ∧
      r.Error = some (.neo4j (some
        { Message := m, Exception := e, Fullname := f, Stacktrace := s })) ∧
      Neo4jError.Error (some
        { Message := m, Exception := e, Fullname := f, Stacktrace := s }) = .ok m ∧
      r.Data = [] ∧ r.Columns = [] ∧
      Results.AsInt A (some r) = .ok (-1, some (.neo4j (some
        { Message := m, Exception := e, Fullname := f, Stacktrace := s }))) := by
  refine ⟨{ Error := some (.neo4j (some
      { Message := m, Exception := e, Fullname := f, Stacktrace := s })) },
    ?_, rfl, rfl, rfl, rfl, rfl⟩
  rw [Cypher.Execute_of_response W σ a cy g req resp _ hc hg hreq hnew hdo hbody,
    if_pos hstatus, jsonUnmarshalNeo4jError_fault m e f s kvs hkvs]

/-- Claim C3 on the specification's example: status 500 and the body
`{"message":"boom","exception":"E","fullname":"pkg.E","stacktrace":["a","b"]}`. -/
theorem C3_fault_body_becomes_error_witness :
    ∃ r, Cypher.Execute
        (World.answering 500 (.doc (.obj (faultMembers "boom" "E" "pkg.E" ["a", "b"]))))
        (Store.withQuery "RETURN 1") (some 0) = .ok (some r) ∧
      r.Error = some (.neo4j (some
        { Message := "boom", Exception := "E", Fullname := "pkg.E",
          Stacktrace := ["a", "b"] })) ∧
      Neo4jError.Error (some
        { Message := "boom", Exception := "E", Fullname := "pkg.E",
          Stacktrace := ["a", "b"] }) = .ok "boom" ∧
      r.Data = [] ∧ r.Columns = [] ∧
      Results.AsInt { intBits := 64, convOverflow := fun _ => 0 } (some r)
        = .ok (-1, some (.neo4j (some
          { Message := "boom", Exception := "E", Fullname := "pkg.E",
            Stacktrace := ["a", "b"] }))) :=
  C3_fault_body_becomes_error { intBits := 64, convOverflow := fun _ => 0 }
    (World.answering 500 (.doc (.obj (faultMembers "boom" "E" "pkg.E" ["a", "b"]))))
    (Store.withQuery "RETURN 1") 0
    { Query := "RETURN 1", gonorm := some 0 }
    { Host := "http://localhost", Port := 7474,
      cypherUrl := "http://localhost:7474/db/data/cypher" }
    (.obj [("query", .str "RETURN 1"), ("params", .null)])
    { StatusCode := 500,
      readAll := .ok (.doc (.obj (faultMembers "boom" "E" "pkg.E" ["a", "b"]))) }
    (faultMembers "boom" "E" "pkg.E" ["a", "b"]) "boom" "E" "pkg.E" ["a", "b"]
    rfl rfl rfl rfl rfl (by decide) rfl (List.Perm.refl _)

/-! ## The accessors on a `Results` without error -/

/-- Claim C4: on an error-free `Results` whose first row starts with the value `v`,
`AsString` returns `v` unchanged and no error when `v` is a string, and panics with a
failed type assertion, returning nothing, when `v` is anything else; a number is
never rendered as text. -/
theorem C4_asString_never_coerces (columns rows rest : List JVal) (v : JVal) :
    (∀ s, v = .str s →
      Results.AsString (some { Columns := columns, Data := .arr (v :: rest) :: rows })
        = .ok (s, none)) ∧
    ((∀ s, v ≠ .str s) →
      Results.AsString (some { Columns := columns, Data := .arr (v :: rest) :: rows })
        = .error .typeAssertion) ∧
    (∀ x, Results.AsString
        (some { Columns := columns, Data := .arr (.num x :: rest) :: rows })
        = .error .typeAssertion) := by
  refine ⟨?_, ?_, ?_⟩
  · rintro s rfl; rfl
  · intro h
    cases v with
    | str s => exact absurd rfl (h s)
    | _ => rfl
  · intro x; rfl

/-- Claim C4 on examples: the row `["Mike", 7]` gives "Mike"; the rows `[5]` and
`[null]` make `AsString` panic. -/
theorem C4_asString_never_coerces_witness :
    Results.AsString (some { Data := [.arr [.str "Mike", .num (.finite 7 0)]] })
      = .ok ("Mike", none) ∧
    Results.AsString (some { Data := [.arr [.null]] }) = .error .typeAssertion ∧
    Results.AsString (some { Data := [.arr [.num (.finite 5 0)]] })
      = .error .typeAssertion :=
  ⟨(C4_asString_never_coerces [] [] [.num (.finite 7 0)] (.str "Mike")).1 "Mike" rfl,
   (C4_asString_never_coerces [] [] [] .null).2.1 (fun _ h => by cases h),
   (C4_asString_never_coerces [] [] [] .null).2.2 (.finite 5 0)⟩

/-- Claim C5: on an error-free `Results` whose first row starts with the finite number
`m * 2 ^ e`, if that number truncated toward zero is a value of `int`, `AsInt`
returns it and no error; hence a number equal to an integer `n` is returned as `n`. -/
theorem C5_asInt_truncates_toward_zero (A : Arch) (columns rows rest : List JVal)
    (m e : Int) (hfit : A.fits (truncTowardZero (Float64.value m e))) :
    Results.AsInt A
        (some { Columns := columns, Data := .arr (.num (.finite m e) :: rest) :: rows })
      = .ok (truncTowardZero (Float64.value m e), none) ∧
    ∀ n : Int, Float64.value m e = n →
      Results.AsInt A
          (some { Columns := columns, Data := .arr (.num (.finite m e) :: rest) :: rows })
        = .ok (n, none) := by
  have key : Results.AsInt A
      (some { Columns := columns, Data := .arr (.num (.finite m e) :: rest) :: rows })
      = .ok (truncTowardZero (Float64.value m e), none) := by
    rw [← Float64.toInt_of_fits A m e hfit]; rfl
  refine ⟨key, fun n hn => ?_⟩
  rw [key, hn, truncTowardZero_intCast]

/-- Claim C5 on examples, for a 64-bit `int`: the float nearest to -2.7, which is
`-3039929748475085 * 2 ^ (-50)`, gives -2, and the data `[[5]]` gives 5. -/
theorem C5_asInt_truncates_toward_zero_witness :
    Results.AsInt { intBits := 64, convOverflow := fun _ => 0 }
        (some { Data := [.arr [.num (.finite (-3039929748475085) (-50))]] })
      = .ok (-2, none) ∧
    Results.AsInt { intBits := 64, convOverflow := fun _ => 0 }
        (some { Columns := [.str "n"], Data := [.arr [.num (.finite 5 0)]] })
      = .ok (5, none) :=
  ⟨(C5_asInt_truncates_toward_zero { intBits := 64, convOverflow := fun _ => 0 } [] [] []
      (-3039929748475085) (-50)
      (by rw [← Float64.truncate_eq]; decide)).1.trans
      (by rw [← Float64.truncate_eq]; rfl),
   (C5_asInt_truncates_toward_zero { intBits := 64, convOverflow := fun _ => 0 }
      [.str "n"] [] [] 5 0
      (by rw [← Float64.truncate_eq]; decide)).2 5 (by simp [Float64.value])⟩

/-- Claim C6: on an error-free `Results` whose first row is a sequence of finite
numbers, each of which truncated toward zero is a value of `int`, `AsInts` returns no
error and the list of these truncations: as many as the row has elements, in the
order of the row.  The rows after the first play no part. -/
theorem C6_asInts_truncates_each (A : Arch) (columns rows : List JVal)
    (fs : List (Int × Int))
    (hfit : ∀ p ∈ fs, A.fits (truncTowardZero (Float64.value p.1 p.2))) :
    ∃ ints,
      Results.AsInts A
          (some
            { Columns := columns
              Data := .arr (fs.map (fun p => JVal.num (.finite p.1 p.2))) :: rows })
        = .ok (ints, none) ∧
      ints = fs.map (fun p => truncTowardZero (Float64.value p.1 p.2)) ∧
      ints.length = fs.length ∧
      ∀ i p, fs.get? i = some p →
        ints.get? i = some (truncTowardZero (Float64.value p.1 p.2)) := by
  have h := foldlM_asInts A fs [] hfit
  rw [List.nil_append] at h
  refine ⟨_, ?_, Eq.refl _, List.length_map _ _, ?_⟩
  · unfold Results.AsInts
    simp only [index, List.get?, assertSlice, bind, Except.bind, pure, Except.pure] at h ⊢
    simp only [h]
    rfl
  · intro i p hp
    simp only [List.get?_eq_getElem?, List.getElem?_map] at hp ⊢
    rw [hp]
    rfl

/-- Claim C6 on the specification's example, for a 64-bit `int`: the data `[[5, 7]]`,
followed by another row, gives `[5, 7]`. -/
theorem C6_asInts_truncates_each_witness :
    Results.AsInts { intBits := 64, convOverflow := fun _ => 0 }
        (some { Columns := [.str "n"],
                Data := [.arr [.num (.finite 5 0), .num (.finite 7 0)], .arr [.str "x"]] })
      = .ok ([5, 7], none) := by
  obtain ⟨ints, h, hints, -, -⟩ :=
    C6_asInts_truncates_each { intBits := 64, convOverflow := fun _ => 0 } [.str "n"]
      [.arr [.str "x"]] [(5, 0), (7, 0)]
      (by
        intro p hp
        rw [← Float64.truncate_eq]
        simp only [List.mem_cons, List.mem_singleton, List.not_mem_nil, or_false] at hp
        rcases hp with rfl | rfl <;> decide)
  have h5 : truncTowardZero (Float64.value 5 0) = 5 := by
    rw [← Float64.truncate_eq]; rfl
  have h7 : truncTowardZero (Float64.value 7 0) = 7 := by
    rw [← Float64.truncate_eq]; rfl
  rw [hints] at h
  simpa [h5, h7] using h

/-- Claim C7: on an error-free `Results` whose first row starts with a JSON object
whose field "data" is the object `d`, `AsNode` returns no error and a `Node` whose
`Params` is `d`; the other fields of that object, the other elements of the row, the
other rows and the columns play no part. -/
theorem C7_asNode_takes_data (columns rows rest : List JVal) (kvs d : GoMap)
    (hdata : mapIndex kvs "data" = .obj d) :
    Results.AsNode (some { Columns := columns, Data := .arr (.obj kvs :: rest) :: rows })
      = .ok (some { Params := d }, none) := by
  unfold Results.AsNode
  simp only [index, List.get?, assertSlice, assertMap, hdata, bind, Except.bind, pure,
    Except.pure]
  rfl

/-- Claim C7 on the specification's example: the data
`[[{"data":{"name":"Mike"},"self":"n/1"}, 3]]` gives a node whose `Params["name"]`
is "Mike". -/
theorem C7_asNode_takes_data_witness :
    ∃ node, Results.AsNode (some { Data :=
        [.arr [.obj [("data", .obj [("name", .str "Mike")]), ("self", .str "n/1")],
               .num (.finite 3 0)]] })
        = .ok (some node, none) ∧
      mapIndex node.Params "name" = .str "Mike" :=
  ⟨{ Params := [("name", .str "Mike")] },
   C7_asNode_takes_data [] [] [.num (.finite 3 0)]
     [("data", .obj [("name", .str "Mike")]), ("self", .str "n/1")]
     [("name", .str "Mike")] rfl,
   rfl⟩

/-- Claim C8: on an error-free `Results` whose first row starts with a JSON object,
if the field "data" of that object is the object `d` and its fields "type", "start"
and "end" are the strings `t`, `s` and `e`, then `AsRelationship` returns no error and
the `Relationship` with `Params = d`, `Type = t`, `Start = s` and `End = e`; and if
one of the four fields is absent or of another kind, `AsRelationship` panics with a
failed type assertion, so that no field is ever defaulted. -/
theorem C8_asRelationship_takes_four_fields (columns rows rest : List JVal) (kvs : GoMap) :
    (∀ d t s e, mapIndex kvs "data" = .obj d → mapIndex kvs "type" = .str t →
      mapIndex kvs "start" = .str s → mapIndex kvs "end" = .str e →
      Results.AsRelationship
          (some { Columns := columns, Data := .arr (.obj kvs :: rest) :: rows })
        = .ok (some { Params := d, Type_ := t, Start := s, End := e }, none)) ∧
    (((∀ d, mapIndex kvs "data" ≠ .obj d) ∨ (∀ t, mapIndex kvs "type" ≠ .str t) ∨
        (∀ s, mapIndex kvs "start" ≠ .str s) ∨ (∀ e, mapIndex kvs "end" ≠ .str e)) →
      Results.AsRelationship
          (some { Columns := columns, Data := .arr (.obj kvs :: rest) :: rows })
        = .error .typeAssertion) := by
  refine ⟨?_, ?_⟩
  · intro d t s e hd ht hs he
    rw [Results.AsRelationship_of_obj, hd, ht, hs, he]
    rfl
  · intro h
    rw [Results.AsRelationship_of_obj]
    rcases h with h | h | h | h
    · rw [assertMap_not_obj _ h]; rfl
    · rw [assertString_not_str _ h]
      rcases assertMap_cases (mapIndex kvs "data") with h1 | ⟨d, h1⟩ <;> rw [h1] <;> rfl
    · rw [assertString_not_str _ h]
      rcases assertMap_cases (mapIndex kvs "data") with h1 | ⟨d, h1⟩ <;>
      rcases assertString_cases (mapIndex kvs "type") with h2 | ⟨t, h2⟩ <;>
      rw [h1, h2] <;> rfl
    · rw [assertString_not_str _ h]
      rcases assertMap_cases (mapIndex kvs "data") with h1 | ⟨d, h1⟩ <;>
      rcases assertString_cases (mapIndex kvs "type") with h2 | ⟨t, h2⟩ <;>
      rcases assertString_cases (mapIndex kvs "start") with h3 | ⟨s, h3⟩ <;>
      rw [h1, h2, h3] <;> rfl

/-- Claim C8 on examples: a relationship element with its four fields and one more
is returned field by field; the same element without "end" makes `AsRelationship`
panic. -/
theorem C8_asRelationship_takes_four_fields_witness :
    Results.AsRelationship (some { Data := [.arr [.obj
        [("start", .str "n/1"), ("data", .obj [("since", .num (.finite 2013 0))]),
         ("self", .str "r/7"), ("type", .str "KNOWS"), ("end", .str "n/2")]]] })
      = .ok (some { Params := [("since", .num (.finite 2013 0))], Type_ := "KNOWS",
                    Start := "n/1", End := "n/2" }, none) ∧
    Results.AsRelationship (some { Data := [.arr [.obj
        [("start", .str "n/1"), ("data", .obj []), ("type", .str "KNOWS")]]] })
      = .error .typeAssertion :=
  ⟨(C8_asRelationship_takes_four_fields [] [] []
      [("start", .str "n/1"), ("data", .obj [("since", .num (.finite 2013 0))]),
       ("self", .str "r/7"), ("type", .str "KNOWS"), ("end", .str "n/2")]).1
      [("since", .num (.finite 2013 0))] "KNOWS" "n/1" "n/2" rfl rfl rfl rfl,
   (C8_asRelationship_takes_four_fields [] [] []
      [("start", .str "n/1"), ("data", .obj []), ("type", .str "KNOWS")]).2
      (Or.inr (Or.inr (Or.inr (fun e h => JVal.noConfusion
        (show JVal.null = JVal.str e from h)))))⟩

/-! ## The query builder -/

/-- Claim C9 as stated fails: after `New("http://localhost", 7474)` and
`g.Cypher("RETURN 1")`, with no call to `On`, the `Params` of the new `Cypher` is the
nil map and not an empty map, and `json.Marshal` writes the body
`{"query":"RETURN 1","params":null}`, not `{"query":"RETURN 1","params":{}}`. -/
theorem C9_params_not_empty_object_counterexample :
    (deref (Store.withQuery "RETURN 1").cyphers (some 0)).toOption.map Cypher.Params
      = some none ∧
    jsonMarshalCypher ((Store.withQuery "RETURN 1").cyphers.get? 0)
      = .ok (.obj [("query", .str "RETURN 1"), ("params", .null)]) ∧
    jsonMarshalCypher ((Store.withQuery "RETURN 1").cyphers.get? 0)
      ≠ .ok (.obj [("query", .str "RETURN 1"), ("params", .obj [])]) := by
  refine ⟨rfl, rfl, ?_⟩
  intro h
  have h2 : (JVal.obj [("query", .str "RETURN 1"), ("params", .null)])
      = .obj [("query", .str "RETURN 1"), ("params", .obj [])] :=
    Except.ok.inj ((show jsonMarshalCypher ((Store.withQuery "RETURN 1").cyphers.get? 0)
      = .ok (.obj [("query", .str "RETURN 1"), ("params", .null)]) from rfl).symm.trans h)
  simp at h2

/-- Claim C9, amended: for every connection pointer `g` (nil included) and every query
text, `g.Cypher(query)` returns the address of a new `Cypher` that stores the text and
the pointer and whose `Params` is the nil map, which binds no key; the objects
already allocated are unchanged; and `json.Marshal` writes this `Cypher` as the object
with "query" equal to the text (as `encoding/json` writes a Go string: a query that is
the UTF-8 encoding of a text gives that text) and "params" equal to null. -/
theorem C9_cypher_stores_query_and_nil_params (σ : Store) (g : Option Addr)
    (query : GoString) :
    (Gonorm.Cypher σ g query).2 = some σ.cyphers.length ∧
    deref (Gonorm.Cypher σ g query).1.cyphers (Gonorm.Cypher σ g query).2
      = .ok { Query := query, Params := none, gonorm := g } ∧
    (∀ a cy, σ.cyphers.get? a = some cy →
      (Gonorm.Cypher σ g query).1.cyphers.get? a = some cy) ∧
    (Gonorm.Cypher σ g query).1.gonorms = σ.gonorms ∧
    jsonMarshalCypher (some { Query := query, Params := none, gonorm := g })
      = .ok (.obj [("query", .str query.toText), ("params", .null)]) ∧
    ∀ text : String, query = GoString.ofString text →
      jsonMarshalCypher (some { Query := query, Params := none, gonorm := g })
        = .ok (.obj [("query", .str text), ("params", .null)]) := by
  refine ⟨rfl, ?_, ?_, rfl, rfl, ?_⟩
  · apply deref_of_get?
    simp [Gonorm.Cypher]
  · intro a cy h
    simp only [List.get?_eq_getElem?] at h
    have hlt : a < σ.cyphers.length := by
      rcases Nat.lt_or_ge a σ.cyphers.length with hlt | hge
      · exact hlt
      · rw [List.getElem?_eq_none hge] at h; cases h
    simp [Gonorm.Cypher, List.getElem?_append_left hlt, h]
  · rintro text rfl
    show Except.ok (JVal.obj [("query", JVal.str (GoString.ofString text).toText),
      ("params", JVal.null)]) = _
    rw [GoString.toText_ofString]

/-- Claim C10: for every allocated `Cypher` at address `a` and all maps `m1`, `m2`
(nil included), both calls of `c.On(m1).On(m2)` return the pointer `a` they were called
on, after them `Params` is `m2` while `Query` and `gonorm` are as before, and every
other object of the store is unchanged. -/
theorem C10_on_replaces_params (σ : Store) (a : Addr) (cy : Cypher)
    (m1 m2 : Option ParamMap) (hc : σ.cyphers.get? a = some cy) :
    ∃ σ1 σ2, Cypher.On σ (some a) m1 = .ok (σ1, some a) ∧
      Cypher.On σ1 (some a) m2 = .ok (σ2, some a) ∧
      deref σ2.cyphers (some a)
        = .ok { Query := cy.Query, Params := m2, gonorm := cy.gonorm } ∧
      (∀ b, b ≠ a → σ2.cyphers.get? b = σ.cyphers.get? b) ∧
      σ2.gonorms = σ.gonorms := by
  have hlt : a < σ.cyphers.length := by
    simp only [List.get?_eq_getElem?] at hc
    rcases Nat.lt_or_ge a σ.cyphers.length with hlt | hge
    · exact hlt
    · rw [List.getElem?_eq_none hge] at hc; cases hc
  have h1 : (σ.cyphers.set a { cy with Params := m1 }).get? a
      = some { cy with Params := m1 } := by
    simp [hlt]
  refine ⟨⟨σ.gonorms, σ.cyphers.set a { cy with Params := m1 }⟩,
    ⟨σ.gonorms, (σ.cyphers.set a { cy with Params := m1 }).set a { cy with Params := m2 }⟩,
    ?_, ?_, ?_, ?_, rfl⟩
  · simp only [Cypher.On, hc]
  · simp only [Cypher.On, h1]
  · apply deref_of_get?
    simp [hlt]
  · intro b hb
    simp [List.getElem?_set, Ne.symm hb]

/-- Claim C10 on an example: binding `{"name1": "Mike"}` and then `{"name2": "Matt"}`
on the query of `Store.withQuery` leaves only the second map, in which "name1" is
unbound. -/
theorem C10_on_replaces_params_witness :
    ∃ σ1 σ2,
      Cypher.On (Store.withQuery "RETURN 1") (some 0) (some [("name1", .str "Mike")])
        = .ok (σ1, some 0) ∧
      Cypher.On σ1 (some 0) (some [("name2", .str "Matt")]) = .ok (σ2, some 0) ∧
      deref σ2.cyphers (some 0)
        = .ok { Query := "RETURN 1", Params := some [("name2", .str "Matt")],
                gonorm := some 0 } ∧
      (∀ b, b ≠ 0 → σ2.cyphers.get? b = (Store.withQuery "RETURN 1").cyphers.get? b) ∧
      σ2.gonorms = (Store.withQuery "RETURN 1").gonorms :=
  C10_on_replaces_params (Store.withQuery "RETURN 1") 0
    { Query := "RETURN 1", gonorm := some 0 }
    (some [("name1", .str "Mike")]) (some [("name2", .str "Matt")]) rfl

/-! ## The factory -/

/-- Claim C11: for every host string and every port, `New(host, port)` returns the
address of a new `Gonorm` whose `Host` and `Port` are the arguments and whose endpoint
URL is the host, then ":", then the decimal numeral of the port, then
"/db/data/cypher"; the objects already allocated are unchanged. -/
theorem C11_new_derives_endpoint (σ : Store) (host : String) (port : Int) :
    deref (New σ host port).1.gonorms (New σ host port).2
      = .ok { Host := host, Port := port,
              cypherUrl := host ++ ":" ++ decimal port ++ "/db/data/cypher" } ∧
    (∀ a g, σ.gonorms.get? a = some g → (New σ host port).1.gonorms.get? a = some g) ∧
    (New σ host port).1.cyphers = σ.cyphers := by
  refine ⟨?_, ?_, rfl⟩
  · apply deref_of_get?
    simp [New, toString_eq_decimal]
  · intro a g h
    simp only [List.get?_eq_getElem?] at h
    have hlt : a < σ.gonorms.length := by
      rcases Nat.lt_or_ge a σ.gonorms.length with hlt | hge
      · exact hlt
      · rw [List.getElem?_eq_none hge] at h; cases h
    simp [New, List.getElem?_append_left hlt, h]

/-- Claim C11 on the example of the test suite: `New("http://localhost", 7474)` has
the endpoint URL "http://localhost:7474/db/data/cypher". -/
theorem C11_new_derives_endpoint_witness :
    deref (New {} "http://localhost" 7474).1.gonorms (New {} "http://localhost" 7474).2
      = .ok { Host := "http://localhost", Port := 7474,
              cypherUrl := "http://localhost:7474/db/data/cypher" } :=
  (C11_new_derives_endpoint {} "http://localhost" 7474).1.trans
    (by rw [show "http://localhost" ++ ":" ++ decimal 7474 ++ "/db/data/cypher"
      = "http://localhost:7474/db/data/cypher" from by decide])

/-! ## The plural accessors -/

/-- Claim C12: on an error-free `Results` whose first row is a sequence of strings,
`AsStrings` returns no error and exactly these strings, as many and in the same order;
and if some element of the first row is not a string, `AsStrings` panics with a failed
type assertion: the element is neither skipped nor converted. -/
theorem C12_asStrings_returns_the_row (columns rows : List JVal) :
    (∀ ss : List String,
      Results.AsStrings
          (some { Columns := columns, Data := .arr (ss.map JVal.str) :: rows })
        = .ok (ss, none)) ∧
    (∀ row : List JVal, (∃ v ∈ row, ∀ s, v ≠ .str s) →
      Results.AsStrings (some { Columns := columns, Data := .arr row :: rows })
        = .error .typeAssertion) := by
  refine ⟨fun ss => ?_, fun row hbad => ?_⟩
  · rw [Results.AsStrings_of_row,
      traverse_map_map_ok assertString JVal.str (fun s => s) ss (fun _ _ => rfl),
      List.map_id']
    rfl
  · obtain ⟨v, hv, hne⟩ := hbad
    rw [Results.AsStrings_of_row,
      traverse_typeAssertion assertString row assertString_error
        ⟨v, hv, .typeAssertion, assertString_not_str v hne⟩]
    rfl

/-- Claim C12 on examples: the row `["Mike", "Matt"]` is returned as it is; the row
`["Mike", 5]` makes `AsStrings` panic. -/
theorem C12_asStrings_returns_the_row_witness :
    Results.AsStrings (some { Data := [.arr [.str "Mike", .str "Matt"]] })
      = .ok (["Mike", "Matt"], none) ∧
    Results.AsStrings (some { Data := [.arr [.str "Mike", .num (.finite 5 0)]] })
      = .error .typeAssertion :=
  ⟨(C12_asStrings_returns_the_row [] []).1 ["Mike", "Matt"],
   (C12_asStrings_returns_the_row [] []).2 [.str "Mike", .num (.finite 5 0)]
     ⟨.num (.finite 5 0), by simp, fun _ h => JVal.noConfusion h⟩⟩

/-- Claim C13: on an error-free `Results` whose first row is a sequence of objects,
the i-th of which has the object `d_i` as its field "data", `AsNodes` returns no error
and as many nodes as the row has elements, the i-th with `Params = d_i`. -/
theorem C13_asNodes_takes_each_data (columns rows : List JVal)
    (elems : List (GoMap × GoMap))
    (hdata : ∀ p ∈ elems, mapIndex p.1 "data" = .obj p.2) :
    ∃ nodes,
      Results.AsNodes
          (some
            { Columns := columns
              Data := .arr (elems.map (fun p => JVal.obj p.1)) :: rows })
        = .ok (some nodes, none) ∧
      nodes = elems.map (fun p => ({ Params := p.2 } : Node)) ∧
      nodes.length = elems.length ∧
      ∀ i p, elems.get? i = some p → (nodes.get? i).map Node.Params = some p.2 := by
  refine ⟨_, ?_, Eq.refl _, List.length_map _ _, ?_⟩
  · rw [Results.AsNodes_of_row,
      traverse_map_map_ok nodeOf (fun p => JVal.obj p.1)
        (fun p => ({ Params := p.2 } : Node)) elems
        (fun p hp => nodeOf_of_data p.1 p.2 (hdata p hp))]
    rfl
  · intro i p hp
    simp only [List.get?_eq_getElem?, List.getElem?_map] at hp ⊢
    rw [hp]
    rfl

/-- Claim C13 on the example of the test suite: a row that returns the nodes of Mike
and of Matt gives two nodes, whose names are "Mike" and then "Matt". -/
theorem C13_asNodes_takes_each_data_witness :
    ∃ n1 n2, Results.AsNodes (some { Data :=
        [.arr [.obj [("data", .obj [("name", .str "Mike")]), ("self", .str "n/1")],
               .obj [("self", .str "n/2"), ("data", .obj [("name", .str "Matt")])]]] })
        = .ok (some [n1, n2], none) ∧
      mapIndex n1.Params "name" = .str "Mike" ∧
      mapIndex n2.Params "name" = .str "Matt" := by
  obtain ⟨nodes, h, hnodes, -, -⟩ := C13_asNodes_takes_each_data [] []
    [([("data", .obj [("name", .str "Mike")]), ("self", .str "n/1")],
      [("name", .str "Mike")]),
     ([("self", .str "n/2"), ("data", .obj [("name", .str "Matt")])],
      [("name", .str "Matt")])]
    (by
      intro p hp
      simp only [List.mem_cons, List.mem_singleton, List.not_mem_nil, or_false] at hp
      rcases hp with rfl | rfl <;> rfl)
  subst hnodes
  exact ⟨_, _, h, rfl, rfl⟩

/-- Claim C14: on an error-free `Results` whose first row is a sequence of objects,
the i-th of which has the object `d_i` as its field "data" and the strings `t_i`,
`s_i`, `e_i` as its fields "type", "start", "end", `AsRelationships` returns no error
and as many relationships as the row has elements, the i-th with `Params = d_i`,
`Type = t_i`, `Start = s_i` and `End = e_i`; so each returned `Type` is the field
"type" of the element at the same position. -/
theorem C14_asRelationships_takes_each_element (columns rows : List JVal)
    (elems : List (GoMap × Relationship))
    (hfields : ∀ p ∈ elems,
      mapIndex p.1 "data" = .obj p.2.Params ∧ mapIndex p.1 "type" = .str p.2.Type_ ∧
      mapIndex p.1 "start" = .str p.2.Start ∧ mapIndex p.1 "end" = .str p.2.End) :
    ∃ relationships,
      Results.AsRelationships
          (some
            { Columns := columns
              Data := .arr (elems.map (fun p => JVal.obj p.1)) :: rows })
        = .ok (some relationships, none) ∧
      relationships = elems.map Prod.snd ∧
      relationships.length = elems.length ∧
      ∀ i p, elems.get? i = some p →
        ∃ rel, relationships.get? i = some rel ∧ rel = p.2 ∧
          mapIndex p.1 "type" = .str rel.Type_ := by
  refine ⟨_, ?_, Eq.refl _, List.length_map _ _, ?_⟩
  · rw [Results.AsRelationships_of_row,
      traverse_map_map_ok relationshipOf (fun p => JVal.obj p.1) Prod.snd elems
        (fun p hp => by
          obtain ⟨hd, ht, hs, he⟩ := hfields p hp
          exact relationshipOf_of_fields p.1 _ _ _ _ hd ht hs he)]
    rfl
  · intro i p hp
    refine ⟨p.2, ?_, rfl, ?_⟩
    · simp only [List.get?_eq_getElem?, List.getElem?_map] at hp ⊢
      rw [hp]
      rfl
    · exact (hfields p (List.get?_mem hp)).2.1

/-- Claim C14 on the example of the test suite: a row that returns the two
relationships between Mike and Matt gives two relationships of type "KNOWS", in the
order of the row. -/
theorem C14_asRelationships_takes_each_element_witness :
    Results.AsRelationships (some { Data :=
        [.arr [.obj [("start", .str "n/1"), ("data", .obj []), ("type", .str "KNOWS"),
                     ("end", .str "n/2")],
               .obj [("start", .str "n/2"), ("data", .obj []), ("type", .str "KNOWS"),
                     ("end", .str "n/1")]]] })
      = .ok (some [{ Params := [], Type_ := "KNOWS", Start := "n/1", End := "n/2" },
                   { Params := [], Type_ := "KNOWS", Start := "n/2", End := "n/1" }],
             none) := by
  obtain ⟨rels, h, hrels, -, -⟩ := C14_asRelationships_takes_each_element [] []
    [([("start", .str "n/1"), ("data", .obj []), ("type", .str "KNOWS"),
       ("end", .str "n/2")],
      { Params := [], Type_ := "KNOWS", Start := "n/1", End := "n/2" }),
     ([("start", .str "n/2"), ("data", .obj []), ("type", .str "KNOWS"),
       ("end", .str "n/1")],
      { Params := [], Type_ := "KNOWS", Start := "n/2", End := "n/1" })]
    (by
      intro p hp
      simp only [List.mem_cons, List.mem_singleton, List.not_mem_nil, or_false] at hp
      rcases hp with rfl | rfl <;> exact ⟨rfl, rfl, rfl, rfl⟩)
  subst hrels
  exact h

/-! ## Singular against plural accessors, and empty results -/

/-- Claim C17: on an error-free `Results`, whenever a plural accessor returns a
non-empty list, the matching singular accessor returns the first element of that list
and no error (`AsInt` against `AsInts`, `AsString` against `AsStrings`, `AsNode`
against `AsNodes`, `AsRelationship` against `AsRelationships`).  The converse fails:
when the first element of the first row is well-shaped and a later one is not (not a
number, not a string, not an object), the singular accessor returns and the plural
one panics. -/
theorem C17_singular_is_head_of_plural (A : Arch) (r : Results) (hr : r.Error = none) :
    (∀ x xs e, Results.AsInts A (some r) = .ok (x :: xs, e) →
      Results.AsInt A (some r) = .ok (x, none)) ∧
    (∀ x xs e, Results.AsStrings (some r) = .ok (x :: xs, e) →
      Results.AsString (some r) = .ok (x, none)) ∧
    (∀ x xs e, Results.AsNodes (some r) = .ok (some (x :: xs), e) →
      Results.AsNode (some r) = .ok (some x, none)) ∧
    (∀ x xs e, Results.AsRelationships (some r) = .ok (some (x :: xs), e) →
      Results.AsRelationship (some r) = .ok (some x, none)) ∧
    (∀ (x : Float64) (rest : List JVal), (∃ v ∈ rest, ∀ y, v ≠ .num y) →
      Results.AsInt A (some { r with Data := .arr (.num x :: rest) :: r.Data })
        = .ok (x.toInt A, none) ∧
      Results.AsInts A (some { r with Data := .arr (.num x :: rest) :: r.Data })
        = .error .typeAssertion) ∧
    (∀ (s : String) (rest : List JVal), (∃ v ∈ rest, ∀ y, v ≠ .str y) →
      Results.AsString (some { r with Data := .arr (.str s :: rest) :: r.Data })
        = .ok (s, none) ∧
      Results.AsStrings (some { r with Data := .arr (.str s :: rest) :: r.Data })
        = .error .typeAssertion) ∧
    (∀ (kvs d : GoMap) (rest : List JVal), mapIndex kvs "data" = .obj d →
      (∃ v ∈ rest, ∀ m, v ≠ .obj m) →
      Results.AsNode (some { r with Data := .arr (.obj kvs :: rest) :: r.Data })
        = .ok (some { Params := d }, none) ∧
      Results.AsNodes (some { r with Data := .arr (.obj kvs :: rest) :: r.Data })
        = .error .typeAssertion) ∧
    (∀ (kvs d : GoMap) (t s e : String) (rest : List JVal),
      mapIndex kvs "data" = .obj d → mapIndex kvs "type" = .str t →
      mapIndex kvs "start" = .str s → mapIndex kvs "end" = .str e →
      (∃ v ∈ rest, ∀ m, v ≠ .obj m) →
      Results.AsRelationship (some { r with Data := .arr (.obj kvs :: rest) :: r.Data })
        = .ok (some { Params := d, Type_ := t, Start := s, End := e }, none) ∧
      Results.AsRelationships
          (some { r with Data := .arr (.obj kvs :: rest) :: r.Data })
        = .error .typeAssertion) := by
  obtain ⟨columns, data, err⟩ := r
  cases hr
  refine ⟨fun x xs e h => Results.AsInt_of_AsInts A _ rfl x xs e h,
    fun x xs e h => Results.AsString_of_AsStrings _ rfl x xs e h,
    fun x xs e h => Results.AsNode_of_AsNodes _ rfl x xs e h,
    fun x xs e h => Results.AsRelationship_of_AsRelationships _ rfl x xs e h,
    ?_, ?_, ?_, ?_⟩
  · rintro x rest ⟨v, hv, hne⟩
    refine ⟨rfl, ?_⟩
    show Results.AsInts A (some { Columns := columns, Data := .arr (.num x :: rest) :: data })
      = _
    rw [Results.AsInts_of_row,
      traverse_typeAssertion (intOf A) _ (intOf_error A)
        ⟨v, List.mem_cons_of_mem _ hv, .typeAssertion, by
          cases v with
          | num y => exact absurd rfl (hne y)
          | _ => rfl⟩]
    rfl
  · rintro s rest ⟨v, hv, hne⟩
    refine ⟨rfl, ?_⟩
    show Results.AsStrings (some { Columns := columns, Data := .arr (.str s :: rest) :: data })
      = _
    rw [Results.AsStrings_of_row,
      traverse_typeAssertion assertString _ assertString_error
        ⟨v, List.mem_cons_of_mem _ hv, .typeAssertion, assertString_not_str v hne⟩]
    rfl
  · rintro kvs d rest hd ⟨v, hv, hne⟩
    refine ⟨?_, ?_⟩
    · show Results.AsNode
        (some { Columns := columns, Data := .arr (.obj kvs :: rest) :: data }) = _
      rw [Results.AsNode_of_row, nodeOf_of_data kvs d hd]
      rfl
    show Results.AsNodes (some { Columns := columns, Data := .arr (.obj kvs :: rest) :: data })
      = _
    rw [Results.AsNodes_of_row,
      traverse_typeAssertion nodeOf _ nodeOf_error
        ⟨v, List.mem_cons_of_mem _ hv, .typeAssertion, by
          cases v with
          | obj m => exact absurd rfl (hne m)
          | _ => rfl⟩]
    rfl
  · rintro kvs d t s e rest hd ht hs he ⟨v, hv, hne⟩
    refine ⟨?_, ?_⟩
    · show Results.AsRelationship
        (some { Columns := columns, Data := .arr (.obj kvs :: rest) :: data }) = _
      rw [Results.AsRelationship_of_row, relationshipOf_of_fields kvs d t s e hd ht hs he]
      rfl
    · show Results.AsRelationships
        (some { Columns := columns, Data := .arr (.obj kvs :: rest) :: data }) = _
      rw [Results.AsRelationships_of_row,
        traverse_typeAssertion relationshipOf _ relationshipOf_error
          ⟨v, List.mem_cons_of_mem _ hv, .typeAssertion, by
            cases v with
            | obj m => exact absurd rfl (hne m)
            | _ => rfl⟩]
      rfl

/-- Claim C17 on examples: on the row `[5, 7]` `AsInts` gives `[5, 7]` and `AsInt`
gives 5; on the row `[5, "x"]` `AsInt` still gives 5 while `AsInts` panics. -/
theorem C17_singular_is_head_of_plural_witness :
    Results.AsInts { intBits := 64, convOverflow := fun _ => 0 }
        (some { Data := [.arr [.num (.finite 5 0), .num (.finite 7 0)]] })
      = .ok ([5, 7], none) ∧
    Results.AsInt { intBits := 64, convOverflow := fun _ => 0 }
        (some { Data := [.arr [.num (.finite 5 0), .num (.finite 7 0)]] })
      = .ok (5, none) ∧
    Results.AsInt { intBits := 64, convOverflow := fun _ => 0 }
        (some { Data := [.arr [.num (.finite 5 0), .str "x"]] })
      = .ok (5, none) ∧
    Results.AsInts { intBits := 64, convOverflow := fun _ => 0 }
        (some { Data := [.arr [.num (.finite 5 0), .str "x"]] })
      = .error .typeAssertion :=
  ⟨rfl,
   (C17_singular_is_head_of_plural { intBits := 64, convOverflow := fun _ => 0 }
      { Data := [.arr [.num (.finite 5 0), .num (.finite 7 0)]] } rfl).1 5 [7] none rfl,
   ((C17_singular_is_head_of_plural { intBits := 64, convOverflow := fun _ => 0 }
      {} rfl).2.2.2.2.1 (.finite 5 0) [.str "x"]
        ⟨.str "x", by simp, fun _ h => JVal.noConfusion h⟩).1,
   ((C17_singular_is_head_of_plural { intBits := 64, convOverflow := fun _ => 0 }
      {} rfl).2.2.2.2.1 (.finite 5 0) [.str "x"]
        ⟨.str "x", by simp, fun _ h => JVal.noConfusion h⟩).2⟩

/-- Claim C18: on an error-free `Results` without any row, each of the eight
accessors panics with an index out of range; on an error-free `Results` whose first
row is empty, the four plural accessors return an empty list and no error, and the
four singular accessors panic with an index out of range. -/
theorem C18_empty_results_panic (A : Arch) (columns rows : List JVal) :
    (Results.AsInt A (some { Columns := columns, Data := [] }) = .error .indexOutOfRange ∧
     Results.AsInts A (some { Columns := columns, Data := [] })
       = .error .indexOutOfRange ∧
     Results.AsString (some { Columns := columns, Data := [] })
       = .error .indexOutOfRange ∧
     Results.AsStrings (some { Columns := columns, Data := [] })
       = .error .indexOutOfRange ∧
     Results.AsNode (some { Columns := columns, Data := [] }) = .error .indexOutOfRange ∧
     Results.AsNodes (some { Columns := columns, Data := [] })
       = .error .indexOutOfRange ∧
     Results.AsRelationship (some { Columns := columns, Data := [] })
       = .error .indexOutOfRange ∧
     Results.AsRelationships (some { Columns := columns, Data := [] })
       = .error .indexOutOfRange) ∧
    (Results.AsInts A (some { Columns := columns, Data := .arr [] :: rows })
       = .ok ([], none) ∧
     Results.AsStrings (some { Columns := columns, Data := .arr [] :: rows })
       = .ok ([], none) ∧
     Results.AsNodes (some { Columns := columns, Data := .arr [] :: rows })
       = .ok (some [], none) ∧
     Results.AsRelationships (some { Columns := columns, Data := .arr [] :: rows })
       = .ok (some [], none) ∧
     Results.AsInt A (some { Columns := columns, Data := .arr [] :: rows })
       = .error .indexOutOfRange ∧
     Results.AsString (some { Columns := columns, Data := .arr [] :: rows })
       = .error .indexOutOfRange ∧
     Results.AsNode (some { Columns := columns, Data := .arr [] :: rows })
       = .error .indexOutOfRange ∧
     Results.AsRelationship (some { Columns := columns, Data := .arr [] :: rows })
       = .error .indexOutOfRange) := by
  refine ⟨⟨?_, ?_, ?_, ?_, ?_, ?_, ?_, ?_⟩, ⟨?_, ?_, ?_, ?_, ?_, ?_, ?_, ?_⟩⟩ <;> rfl

/-! ## The request body -/

/-- Claim C15 as stated fails on a query that is not valid UTF-8: for the query of the
single byte 0xFF, after `g.Cypher(q).On(map[string]interface{}{})` the body that
`json.Marshal` writes has "query" equal to the text U+FFFD; the UTF-8 encoding of that
text is the three bytes EF BF BD, not the query; and no text at all has the query as its
encoding, so "query" cannot decode to the query. -/
theorem C15_invalid_query_counterexample :
    ∃ σ2,
      Cypher.On (Gonorm.Cypher (New {} "http://localhost" 7474).1 (some 0) ⟨[byte 0xFF]⟩).1
          (Gonorm.Cypher (New {} "http://localhost" 7474).1 (some 0) ⟨[byte 0xFF]⟩).2
          (some [])
        = .ok (σ2, some 0) ∧
      jsonMarshalCypher (σ2.cyphers.get? 0)
        = .ok (.obj [("query", .str (String.mk [Char.ofNat 0xFFFD])),
                     ("params", .obj [])]) ∧
      GoString.ofString (String.mk [Char.ofNat 0xFFFD])
        = ⟨[byte 0xEF, byte 0xBF, byte 0xBD]⟩ ∧
      GoString.ofString (String.mk [Char.ofNat 0xFFFD]) ≠ ⟨[byte 0xFF]⟩ ∧
      ∀ text : String, GoString.ofString text ≠ ⟨[byte 0xFF]⟩ := by
  refine ⟨_, rfl, rfl, rfl, by decide, ?_⟩
  intro text h
  have h1 : (GoString.ofString text).toText = String.mk [Char.ofNat 0xFFFD] := by
    rw [h]; rfl
  rw [GoString.toText_ofString] at h1
  rw [h1] at h
  exact absurd h (by decide)

/-- Claim C15, amended: for every query `q` that is the UTF-8 encoding of a text and
every map `m` of representable values (the nil map included), after `g.Cypher(q).On(m)`
the body that `Execute` obtains from `json.Marshal` is a JSON object with the two
members "query" and "params" and no other; "query" is the text that `q` encodes;
"params" is null when `m` is the nil map, and otherwise is deeply equal to `m`; the
connection pointer is not in the body; and this body is what `Execute` hands to the
network. -/
theorem C15_valid_request_round_trip (σ : Store) (g : Option Addr) (q : GoString)
    (text : String) (m : Option ParamMap) (hq : q = GoString.ofString text)
    (hm : ∀ kvs, m = some kvs → Representable (.obj kvs)) :
    ∃ σ2 params,
      Cypher.On (Gonorm.Cypher σ g q).1 (Gonorm.Cypher σ g q).2 m
        = .ok (σ2, (Gonorm.Cypher σ g q).2) ∧
      jsonMarshalCypher ((Gonorm.Cypher σ g q).2.bind (fun a => σ2.cyphers.get? a))
        = .ok (.obj [("query", .str text), ("params", params)]) ∧
      (m = none → params = .null) ∧
      (∀ kvs, m = some kvs → DeepEqual (.obj kvs) params) ∧
      ∀ (W : World) (g0 : Gonorm) (err : GoError), deref σ2.gonorms g = .ok g0 →
        W.newRequest g0.cypherUrl (.obj [("query", .str text), ("params", params)]) = none →
        W.clientDo g0.cypherUrl (.obj [("query", .str text), ("params", params)])
          = .error err →
        Cypher.Execute W σ2 (Gonorm.Cypher σ g q).2 = .ok (some { Error := some err }) := by
  obtain ⟨σ2, hon, hget, -⟩ := Cypher.On_after_Cypher σ g q m
  obtain ⟨params, hbody, hnil, hdeep⟩ := jsonMarshalCypher_representable q m g hm
  have htext : q.toText = text := by rw [hq, GoString.toText_ofString]
  rw [htext] at hbody
  refine ⟨σ2, params, hon, ?_, hnil, hdeep, ?_⟩
  · show jsonMarshalCypher (σ2.cyphers.get? σ.cyphers.length) = _
    rw [hget, hbody]
  · intro W g0 err hg hnew hdo
    exact Cypher.Execute_of_clientDo_error W σ2 σ.cyphers.length _ g0 _ err hget hg hbody
      hnew hdo

/-- Claim C15, amended, on the parameters of the test suite with an integer added: for
`g.Cypher("RETURN 1").On({"name2": "Matt", "name1": "Mike", "n": 7})` the body has the
members "query", equal to the text `RETURN 1`, and "params", deeply equal to the map
given. -/
theorem C15_valid_request_round_trip_witness :
    ∃ σ2 params,
      Cypher.On (Gonorm.Cypher (New {} "http://localhost" 7474).1 (some 0) "RETURN 1").1
          (Gonorm.Cypher (New {} "http://localhost" 7474).1 (some 0) "RETURN 1").2
          (some [("name2", .str "Matt"), ("name1", .str "Mike"), ("n", .int 7)])
        = .ok (σ2, (Gonorm.Cypher (New {} "http://localhost" 7474).1 (some 0) "RETURN 1").2) ∧
      jsonMarshalCypher
          ((Gonorm.Cypher (New {} "http://localhost" 7474).1 (some 0) "RETURN 1").2.bind
            (fun a => σ2.cyphers.get? a))
        = .ok (.obj [("query", .str "RETURN 1"), ("params", params)]) ∧
      ((some [("name2", .str "Matt"), ("name1", .str "Mike"), ("n", .int 7)] :
          Option ParamMap) = none → params = .null) ∧
      (∀ kvs : ParamMap,
        (some [("name2", .str "Matt"), ("name1", .str "Mike"), ("n", .int 7)] :
          Option ParamMap) = some kvs →
        DeepEqual (.obj kvs) params) ∧
      ∀ (W : World) (g0 : Gonorm) (err : GoError), deref σ2.gonorms (some 0) = .ok g0 →
        W.newRequest g0.cypherUrl (.obj [("query", .str "RETURN 1"), ("params", params)])
          = none →
        W.clientDo g0.cypherUrl (.obj [("query", .str "RETURN 1"), ("params", params)])
          = .error err →
        Cypher.Execute W σ2
            (Gonorm.Cypher (New {} "http://localhost" 7474).1 (some 0) "RETURN 1").2
          = .ok (some { Error := some err }) :=
  C15_valid_request_round_trip (New {} "http://localhost" 7474).1 (some 0) "RETURN 1"
    "RETURN 1" (some [("name2", .str "Matt"), ("name1", .str "Mike"), ("n", .int 7)]) rfl
    (fun kvs h => by
      cases h
      refine Representable.obj _ (fun kv hkv => ?_) (fun kv hkv => ?_)
      · simp only [List.mem_cons, List.mem_singleton, List.not_mem_nil, or_false] at hkv
        rcases hkv with rfl | rfl | rfl <;> exact GoString.valid_ofString _
      · simp only [List.mem_cons, List.mem_singleton, List.not_mem_nil, or_false] at hkv
        rcases hkv with rfl | rfl | rfl
        · exact Representable.str _ (GoString.valid_ofString _)
        · exact Representable.str _ (GoString.valid_ofString _)
        · exact Representable.int _)

/-! ## The fault body -/

/-- Claim C16 (the code departs from it on the body `null`): when the status is not
200, whatever the body, `Execute` returns without a panic a `Results` with empty
`Data` and `Columns` whose `Error` holds the `*Neo4jError` that `json.Unmarshal` left,
the decoding error being dropped.  That pointer is the zero `Neo4jError` when the body
is not JSON or is JSON other than an object or null, and some `Neo4jError` for every
body but null; for the body `null` it is the nil pointer, so that `Error` is set but
its method `Error()` panics on a nil dereference. -/
theorem C16_fault_decode_is_best_effort (W : World) (σ : Store) (a : Addr)
    (cy : Cypher) (g : Gonorm) (req : JVal) (resp : Response) (body : Body)
    (hc : σ.cyphers.get? a = some cy) (hg : deref σ.gonorms cy.gonorm = .ok g)
    (hreq : jsonMarshalCypher (some cy) = .ok req)
    (hnew : W.newRequest g.cypherUrl req = none)
    (hdo : W.clientDo g.cypherUrl req = .ok resp)
    (hstatus : resp.StatusCode ≠ 200)
    (hbody : resp.readAll = .ok body) :
    ∃ r p, Cypher.Execute W σ (some a) = .ok (some r) ∧
      r.Error = some (.neo4j p) ∧ r.Data = [] ∧ r.Columns = [] ∧
      (body = .invalid → p = some {}) ∧
      (∀ v, body = .doc v → v ≠ .null → (∀ kvs, v ≠ .obj kvs) → p = some {}) ∧
      (∀ v, body = .doc v → v ≠ .null → ∃ f, p = some f) ∧
      (body = .doc .null → p = none ∧ Neo4jError.Error p = .error .nilDereference) := by
  obtain ⟨h1, h2, h3, h4⟩ := jsonUnmarshalNeo4jError_pointer body
  refine ⟨{ Error := some (.neo4j (jsonUnmarshalNeo4jError body {}).1) },
    (jsonUnmarshalNeo4jError body {}).1, ?_, rfl, rfl, rfl, h1, h2, h3, ?_⟩
  · rw [Cypher.Execute_of_response W σ a cy g req resp body hc hg hreq hnew hdo hbody,
      if_pos hstatus]
  · intro hb
    rw [h4 hb]
    exact ⟨rfl, rfl⟩

/-- Claim C16 at a failing input: a response with status 500 whose body is the JSON
literal `null`.  `Execute` returns a `Results` whose `Error` is a nil `*Neo4jError`:
`AsInt` returns it as an error, and calling `Error()` on it panics. -/
theorem C16_fault_decode_is_best_effort_witness :
    ∃ r, Cypher.Execute (World.answering 500 (.doc .null)) (Store.withQuery "RETURN 1")
        (some 0) = .ok (some r) ∧
      r.Error = some (.neo4j none) ∧
      Results.AsInt { intBits := 64, convOverflow := fun _ => 0 } (some r)
        = .ok (-1, some (.neo4j none)) ∧
      Neo4jError.Error none = .error .nilDereference := by
  obtain ⟨r, p, hr, herr, -, -, -, -, -, hnull⟩ :=
    C16_fault_decode_is_best_effort (World.answering 500 (.doc .null))
      (Store.withQuery "RETURN 1") 0
      { Query := "RETURN 1", gonorm := some 0 }
      { Host := "http://localhost", Port := 7474,
        cypherUrl := "http://localhost:7474/db/data/cypher" }
      (.obj [("query", .str "RETURN 1"), ("params", .null)])
      { StatusCode := 500, readAll := .ok (.doc .null) }
      (.doc .null) rfl rfl rfl rfl rfl (by decide) rfl
  obtain ⟨hp, hpanic⟩ := hnull rfl
  subst hp
  refine ⟨r, hr, herr, ?_, rfl⟩
  obtain ⟨columns, data, err⟩ := r
  cases herr
  rfl

end GonormCypher
